import Mathlib

/-!
Verification of the resona synchronization & federated-search engine.

This file gives a shallow embedding, in Lean 4, of the algorithmic core of
the repository (the LanceDB-backed `EmbeddingService` in
`src/service/embedding-service.ts` and the `UnifiedSearchService` in
`src/service/unified-search-service.ts`), and proves or refutes the frozen
claims about it.

Modelling conventions:
* JavaScript strings are modelled as `List Char` (`Str`).
* The SHA-256 content hash (`hashText`, an external `Bun.CryptoHasher`
  collaborator) is modelled as an arbitrary function `hashFn : Str → Str`;
  every theorem is universally quantified over it, which captures exactly
  the property the code relies on: the digest is a pure deterministic
  function of the hashed text.
* Embedding vectors (produced by the external provider collaborator) are an
  arbitrary type `V`; the provider's `embed` is modelled as mapping a pure
  function `embedOne` over the batch texts, and per-call failures of the
  provider and of the store flush are modelled by success oracles
  `provOk, flushOk : Nat → Bool` indexed by call number.
* LanceDB similarity distances are IEEE doubles in the source; the claims
  about them are purely order-theoretic (comparisons and sorting), so they
  are modelled as rationals `ℚ`, which has the same order behaviour on the
  values involved (NaN never arises in the claims considered).
* `Date.now()` is modelled as an explicit parameter `now : Nat`.
* Bounded while-loops of the source are modelled with explicit fuel that is
  provably sufficient; `errorSamples` (a bounded diagnostic sample of error
  message strings) and debug logging are omitted, as no claim mentions
  their contents.
-/

namespace Resona

/-- JavaScript strings, modelled as lists of characters. -/
abbrev Str := List Char

/-- Association-list lookup (model of `Map.get`); first binding wins. -/
def alookup {κ ν : Type} [DecidableEq κ] : List (κ × ν) → κ → Option ν
  | [], _ => none
  | (k, v) :: r, key => if k = key then some v else alookup r key

/-- Model of `Map.set` / in-place value update: if the key is present the
value is replaced at its original position (JS `Map` keeps first-insertion
key order), otherwise the binding is appended. -/
def mapSet {κ ν : Type} [DecidableEq κ] (m : List (κ × ν)) (k : κ) (v : ν) :
    List (κ × ν) :=
  if m.any (fun p => p.1 = k) then
    m.map (fun p => if p.1 = k then (k, v) else p)
  else m ++ [(k, v)]

/-- Model of `Set.add`: insert if absent, keeping insertion order. -/
def insertSet (s : List Str) (x : Str) : List Str :=
  if x ∈ s then s else s ++ [x]

/-!
## `getBaseId` (embedding-service.ts lines 547–561)

```ts
function getBaseId(id: string): string {
  const hashIndex = id.lastIndexOf("#");
  if (hashIndex === -1) return id;
  const suffix = id.substring(hashIndex + 1);
  if (/^\d+$/.test(suffix)) {
    return id.substring(0, hashIndex);
  }
  return id;
}
```
-/

/-- Index of the last `'#'` in a string (`id.lastIndexOf("#")`), `none`
standing for JavaScript's `-1`. -/
def lastHashIdx : Str → Option Nat
  | [] => none
  | c :: cs =>
    match lastHashIdx cs with
    | some i => some (i + 1)
    | none => if c = '#' then some 0 else none

/-- `getBaseId` from embedding-service.ts lines 547–561: strip a trailing
`"#" ++ digits` chunk suffix, if present, from a chunk id.  The regular
expression `/^\d+$/` is "non-empty and all characters are decimal digits". -/
def getBaseId (id : Str) : Str :=
  match lastHashIdx id with
  | none => id
  | some hashIndex =>
    let suffix := id.drop (hashIndex + 1)
    if suffix ≠ [] ∧ suffix.all Char.isDigit then id.take hashIndex else id

/-- Whether a string ends in `"#" ++ (one or more digits)`, i.e. whether
`getBaseId` would strip a suffix from it.  (Helper for stating claims; it
tests exactly the condition of `getBaseId`'s stripping branch.) -/
def hasChunkSuffix (id : Str) : Bool :=
  match lastHashIdx id with
  | none => false
  | some hashIndex =>
    let suffix := id.drop (hashIndex + 1)
    decide (suffix ≠ []) && suffix.all Char.isDigit

/-!
## Decimal rendering of chunk ordinals

`embedBatch` builds multi-chunk ids as `` `${item.id}#${c}` `` (line 859);
the ordinal `c` is rendered in decimal.  `natToChars` is the standard
decimal rendering, written with explicit (provably sufficient) fuel.
-/

/-- Fueled decimal rendering accumulator. -/
def natToCharsAux : Nat → Nat → Str → Str
  | 0, _, acc => acc
  | fuel + 1, n, acc =>
    if n < 10 then Nat.digitChar n :: acc
    else natToCharsAux fuel (n / 10) (Nat.digitChar (n % 10) :: acc)

/-- Decimal rendering of a natural number, as JavaScript's number-to-string
conversion produces for the chunk ordinal. -/
def natToChars (n : Nat) : Str := natToCharsAux (n + 1) n []

/-- Chunk identifier generation (embedding-service.ts lines 846–865): the
bare item id when the chunk count is 1, `id + "#" + c` otherwise. -/
def mkChunkId (id : Str) (numChunks c : Nat) : Str :=
  if numChunks = 1 then id else id ++ '#' :: natToChars c

/-!
## `chunkText` (embedding-service.ts lines 518–545)

```ts
function chunkText(text, chunkSize, overlap) {
  if (text.length <= chunkSize) return [text];
  const chunks = []; let start = 0;
  while (start < text.length) {
    const end = Math.min(start + chunkSize, text.length);
    chunks.push(text.substring(start, end));
    start += chunkSize - overlap;
    if (text.length - start < overlap && start < text.length) break;
  }
  return chunks;
}
```

The loop is modelled on window index pairs `(start, end)`; `chunkText`
itself maps them back to substrings.  The fuel `len + 1` is sufficient
whenever `overlap < chunkSize` (the step `chunkSize - overlap` is then at
least 1, and `start` stays below `len` while the loop runs); the
fuel-irrelevance lemma below makes this precise.
-/

/-- One `while` iteration structure of `chunkText`: emit `(start, end)`
windows.  Nat subtraction agrees with the JS `text.length - start` here
because the branch using it also requires `start < len`. -/
def chunkLoop (chunkSize overlap : Nat) : Nat → Nat → Nat → List (Nat × Nat)
  | 0, _, _ => []
  | fuel + 1, len, start =>
    if start < len then
      let e := min (start + chunkSize) len
      let start' := start + (chunkSize - overlap)
      if len - start' < overlap ∧ start' < len then
        [(start, e)]
      else
        (start, e) :: chunkLoop chunkSize overlap fuel len start'
    else []

/-- The windows produced by `chunkText` on a text of length `len`. -/
def chunkSpans (len chunkSize overlap : Nat) : List (Nat × Nat) :=
  if len ≤ chunkSize then [(0, len)]
  else chunkLoop chunkSize overlap (len + 1) len 0

/-- `chunkText` (embedding-service.ts lines 518–545). -/
def chunkText (text : Str) (chunkSize overlap : Nat) : List Str :=
  (chunkSpans text.length chunkSize overlap).map
    (fun pr => (text.drop pr.1).take (pr.2 - pr.1))

/-!
### Lemmas about `chunkText` (claim C10)
-/

theorem chunkLoop_stop {chunkSize overlap fuel len start : Nat}
    (h : len ≤ start) : chunkLoop chunkSize overlap fuel len start = [] := by
  cases fuel with
  | zero => rfl
  | succ fuel => simp [chunkLoop, Nat.not_lt.mpr h]

theorem chunkLoop_fuel_irrel {chunkSize overlap len : Nat}
    (hov : overlap < chunkSize) :
    ∀ f₁ f₂ start, len - start ≤ f₁ → len - start ≤ f₂ →
      chunkLoop chunkSize overlap f₁ len start =
        chunkLoop chunkSize overlap f₂ len start := by
  intro f₁
  induction f₁ with
  | zero =>
    intro f₂ start h₁ _
    rw [chunkLoop_stop (by omega)]
    exact (chunkLoop_stop (by omega)).symm
  | succ f₁ ih =>
    intro f₂ start h₁ h₂
    by_cases hsl : start < len
    · cases f₂ with
      | zero => omega
      | succ f₂ =>
        simp only [chunkLoop, if_pos hsl]
        by_cases hbr : len - (start + (chunkSize - overlap)) < overlap ∧
            start + (chunkSize - overlap) < len
        · rw [if_pos hbr, if_pos hbr]
        · rw [if_neg hbr, if_neg hbr]
          have := ih f₂ (start + (chunkSize - overlap)) (by omega) (by omega)
          rw [this]
    · rw [chunkLoop_stop (by omega), chunkLoop_stop (by omega)]

theorem chunkLoop_covers {chunkSize overlap len : Nat}
    (hov : overlap < chunkSize) :
    ∀ fuel start pos, len - start ≤ fuel → start ≤ pos → pos < len →
      ∃ pr ∈ chunkLoop chunkSize overlap fuel len start,
        pr.1 ≤ pos ∧ pos < pr.2 := by
  intro fuel
  induction fuel with
  | zero => intro start pos h₁ h₂ h₃; omega
  | succ fuel ih =>
    intro start pos h₁ h₂ h₃
    have hsl : start < len := by omega
    simp only [chunkLoop, if_pos hsl]
    by_cases hbr : len - (start + (chunkSize - overlap)) < overlap ∧
        start + (chunkSize - overlap) < len
    · rw [if_pos hbr]
      refine ⟨(start, min (start + chunkSize) len), List.mem_singleton.mpr rfl, h₂, ?_⟩
      -- the break condition forces the emitted window to end at `len`
      have : min (start + chunkSize) len = len := by omega
      omega
    · rw [if_neg hbr]
      by_cases hpe : pos < min (start + chunkSize) len
      · exact ⟨(start, min (start + chunkSize) len), List.mem_cons_self _ _, h₂, hpe⟩
      · have hmin : min (start + chunkSize) len = start + chunkSize := by omega
        obtain ⟨pr, hmem, hle, hlt⟩ :=
          ih (start + (chunkSize - overlap)) pos (by omega) (by omega) h₃
        exact ⟨pr, List.mem_cons_of_mem _ hmem, hle, hlt⟩

theorem chunkLoop_getLast {chunkSize overlap len : Nat}
    (hov : overlap < chunkSize) :
    ∀ fuel start, len - start ≤ fuel → start < len →
      ∃ a, (chunkLoop chunkSize overlap fuel len start).getLast? =
        some (a, len) := by
  intro fuel
  induction fuel with
  | zero => intro start h₁ h₂; omega
  | succ fuel ih =>
    intro start h₁ h₂
    simp only [chunkLoop, if_pos h₂]
    by_cases hbr : len - (start + (chunkSize - overlap)) < overlap ∧
        start + (chunkSize - overlap) < len
    · rw [if_pos hbr]
      have : min (start + chunkSize) len = len := by omega
      exact ⟨start, by rw [this]; rfl⟩
    · rw [if_neg hbr]
      by_cases hnext : start + (chunkSize - overlap) < len
      · obtain ⟨a, ha⟩ := ih (start + (chunkSize - overlap)) (by omega) hnext
        have hne : chunkLoop chunkSize overlap fuel len
            (start + (chunkSize - overlap)) ≠ [] := by
          intro hnil; rw [hnil] at ha; cases ha
        refine ⟨a, ?_⟩
        cases hrec : chunkLoop chunkSize overlap fuel len
            (start + (chunkSize - overlap)) with
        | nil => exact absurd hrec hne
        | cons x xs =>
          rw [hrec] at ha
          rw [List.getLast?_cons_cons, ha]
      · rw [chunkLoop_stop (by omega)]
        have : min (start + chunkSize) len = len := by omega
        exact ⟨start, by rw [this]; rfl⟩

/-!
### Claim C10
-/

/-- **C10 (confirmed).**  Whenever `chunkSize > overlap ≥ 0`, `chunkText`
terminates (the explicit fuel `len + 1` is irrelevant: any fuel of at least
the text length produces the same windows) and covers the whole input:
every character position lies inside at least one emitted window, the last
emitted window ends exactly at the end of the text, and the returned chunks
are exactly the substrings of those windows.  In particular no trailing
content is dropped, even when the next window would start within `overlap`
characters of the end: in that case the previously emitted window already
extends to the end of the text. -/
theorem chunkText_coverage (text : Str) (chunkSize overlap : Nat)
    (h : overlap < chunkSize) :
    (∀ pos < text.length, ∃ pr ∈ chunkSpans text.length chunkSize overlap,
        pr.1 ≤ pos ∧ pos < pr.2)
    ∧ (∃ pr, (chunkSpans text.length chunkSize overlap).getLast? = some pr ∧
        pr.2 = text.length)
    ∧ (∀ fuel, text.length ≤ fuel →
        chunkLoop chunkSize overlap (fuel + 1) text.length 0 =
          chunkLoop chunkSize overlap (text.length + 1) text.length 0)
    ∧ chunkText text chunkSize overlap =
        (chunkSpans text.length chunkSize overlap).map
          (fun pr => (text.drop pr.1).take (pr.2 - pr.1)) := by
  refine ⟨?_, ?_, ?_, rfl⟩
  · intro pos hpos
    unfold chunkSpans
    by_cases hle : text.length ≤ chunkSize
    · exact ⟨(0, text.length), by rw [if_pos hle]; exact List.mem_singleton.mpr rfl,
        Nat.zero_le _, hpos⟩
    · rw [if_neg hle]
      exact chunkLoop_covers h (text.length + 1) 0 pos (by omega) (Nat.zero_le _) hpos
  · unfold chunkSpans
    by_cases hle : text.length ≤ chunkSize
    · exact ⟨(0, text.length), by rw [if_pos hle]; rfl, rfl⟩
    · rw [if_neg hle]
      have hpos : 0 < text.length := by omega
      have hfl : text.length - 0 ≤ text.length + 1 := by omega
      obtain ⟨a, ha⟩ := chunkLoop_getLast h (text.length + 1) 0 hfl hpos
      exact ⟨(a, text.length), ha, rfl⟩
  · intro fuel hfuel
    exact chunkLoop_fuel_irrel h (fuel + 1) (text.length + 1) 0 (by omega) (by omega)

/-- **C10, witness** at the concrete text `"abc"` with `chunkSize = 2`,
`overlap = 1` (the text is chunked into three overlapping windows, the last
of which ends at position 3). -/
theorem chunkText_coverage_witness :
    (1 < 2) ∧
      ((∀ pos < (['a', 'b', 'c'] : Str).length,
          ∃ pr ∈ chunkSpans (['a', 'b', 'c'] : Str).length 2 1,
            pr.1 ≤ pos ∧ pos < pr.2)
        ∧ (∃ pr, (chunkSpans (['a', 'b', 'c'] : Str).length 2 1).getLast? =
              some pr ∧ pr.2 = (['a', 'b', 'c'] : Str).length)
        ∧ (∀ fuel, (['a', 'b', 'c'] : Str).length ≤ fuel →
            chunkLoop 2 1 (fuel + 1) (['a', 'b', 'c'] : Str).length 0 =
              chunkLoop 2 1 ((['a', 'b', 'c'] : Str).length + 1)
                (['a', 'b', 'c'] : Str).length 0)
        ∧ chunkText ['a', 'b', 'c'] 2 1 =
            (chunkSpans (['a', 'b', 'c'] : Str).length 2 1).map
              (fun pr => ((['a', 'b', 'c'] : Str).drop pr.1).take (pr.2 - pr.1))) :=
  ⟨by decide, chunkText_coverage ['a', 'b', 'c'] 2 1 (by decide)⟩

/-!
### Lemmas about decimal rendering and `getBaseId`
-/

theorem digitChar_isDigit {n : Nat} (h : n < 10) :
    (Nat.digitChar n).isDigit = true := by
  interval_cases n <;> decide

theorem natToCharsAux_all_digits (fuel : Nat) :
    ∀ (n : Nat) (acc : Str), (∀ c ∈ acc, c.isDigit = true) →
      ∀ c ∈ natToCharsAux fuel n acc, c.isDigit = true := by
  induction fuel with
  | zero => intro n acc hacc c hc; exact hacc c hc
  | succ fuel ih =>
    intro n acc hacc c hc
    simp only [natToCharsAux] at hc
    by_cases hlt : n < 10
    · simp only [if_pos hlt] at hc
      rcases List.mem_cons.mp hc with rfl | hmem
      · exact digitChar_isDigit hlt
      · exact hacc c hmem
    · simp only [if_neg hlt] at hc
      refine ih (n / 10) (Nat.digitChar (n % 10) :: acc) ?_ c hc
      intro d hd
      rcases List.mem_cons.mp hd with rfl | hmem
      · exact digitChar_isDigit (Nat.mod_lt _ (by omega))
      · exact hacc d hmem

theorem natToChars_all_digits (n : Nat) :
    ∀ c ∈ natToChars n, c.isDigit = true :=
  natToCharsAux_all_digits (n + 1) n [] (by intro c hc; cases hc)

theorem natToCharsAux_ne_nil (fuel : Nat) :
    ∀ (n : Nat) (acc : Str), acc ≠ [] → natToCharsAux fuel n acc ≠ [] := by
  induction fuel with
  | zero => intro n acc h; exact h
  | succ fuel ih =>
    intro n acc h
    simp only [natToCharsAux]
    by_cases hlt : n < 10
    · simp [if_pos hlt]
    · simpa [if_neg hlt] using ih (n / 10) (Nat.digitChar (n % 10) :: acc) (by simp)

theorem natToChars_ne_nil (n : Nat) : natToChars n ≠ [] := by
  unfold natToChars natToCharsAux
  by_cases hlt : n < 10
  · simp [if_pos hlt]
  · simpa [if_neg hlt] using
      natToCharsAux_ne_nil n (n / 10) (Nat.digitChar (n % 10) :: []) (by simp)

theorem isDigit_ne_hash {c : Char} (h : c.isDigit = true) : c ≠ '#' := by
  intro heq; subst heq; exact absurd h (by decide)

theorem lastHashIdx_no_hash {ds : Str} (h : ∀ c ∈ ds, c ≠ '#') :
    lastHashIdx ds = none := by
  induction ds with
  | nil => rfl
  | cons c cs ih =>
    have hcs : lastHashIdx cs = none := ih (fun d hd => h d (List.mem_cons_of_mem c hd))
    simp [lastHashIdx, hcs, h c (List.mem_cons_self c cs)]

theorem lastHashIdx_append_hash (id : Str) {ds : Str} (h : ∀ c ∈ ds, c ≠ '#') :
    lastHashIdx (id ++ '#' :: ds) = some id.length := by
  induction id with
  | nil => simp [lastHashIdx, lastHashIdx_no_hash h]
  | cons a id' ih => simp [lastHashIdx, ih]

theorem getBaseId_append_digits (id : Str) {ds : Str} (hne : ds ≠ [])
    (hd : ∀ c ∈ ds, c.isDigit = true) :
    getBaseId (id ++ '#' :: ds) = id := by
  have hnh : ∀ c ∈ ds, c ≠ '#' := fun c hc => isDigit_ne_hash (hd c hc)
  have hidx := lastHashIdx_append_hash id hnh
  have hdrop : (id ++ '#' :: ds).drop (id.length + 1) = ds := by simp
  have htake : (id ++ '#' :: ds).take id.length = id := by simp
  simp only [getBaseId, hidx, hdrop, htake]
  rw [if_pos ⟨hne, List.all_eq_true.mpr hd⟩]

theorem getBaseId_of_no_suffix {id : Str} (h : hasChunkSuffix id = false) :
    getBaseId id = id := by
  unfold hasChunkSuffix at h
  unfold getBaseId
  cases hidx : lastHashIdx id with
  | none => rfl
  | some i =>
    rw [hidx] at h
    have hcond : ¬ (List.drop (i + 1) id ≠ [] ∧
        (List.drop (i + 1) id).all Char.isDigit = true) := by
      rintro ⟨hne, hall⟩
      rcases Bool.and_eq_false_iff.mp h with h' | h'
      · exact hne (by simpa using h')
      · rw [hall] at h'; cases h'
    show (if List.drop (i + 1) id ≠ [] ∧
        (List.drop (i + 1) id).all Char.isDigit = true then
      List.take i id else id) = id
    rw [if_neg hcond]

theorem getBaseId_natToChars_suffix (id : Str) (c : Nat) :
    getBaseId (id ++ '#' :: natToChars c) = id :=
  getBaseId_append_digits id (natToChars_ne_nil c) (natToChars_all_digits c)

/-!
### Claim C5
-/

/-- **C5, counterexample.**  The claim asserts the `getBaseId` round-trip for
*all* item ids, including ids ending in `"#" ++ digits`.  For the item id
`"a#0"` with chunk count 1 the generated chunk identifier is the bare id
`"a#0"` itself, but `getBaseId "a#0" = "a"`, not the original id. -/
theorem getBaseId_roundtrip_cex :
    mkChunkId ['a', '#', '0'] 1 0 = ['a', '#', '0'] ∧
      getBaseId (mkChunkId ['a', '#', '0'] 1 0) = ['a'] ∧
      ['a'] ≠ ['a', '#', '0'] := by
  refine ⟨rfl, ?_, by decide⟩
  decide

/-- **C5, amended.**  `getBaseId` recovers the owning item id from every
generated chunk identifier, for every chunk ordinal, *provided* that in the
single-chunk case the item id does not itself end in `"#"` followed by one
or more decimal digits (multi-chunk identifiers `id + "#" + c` are always
recovered, even for such ids). -/
theorem getBaseId_mkChunkId (id : Str) (numChunks c : Nat)
    (h : numChunks = 1 → hasChunkSuffix id = false) :
    getBaseId (mkChunkId id numChunks c) = id := by
  unfold mkChunkId
  by_cases h1 : numChunks = 1
  · rw [if_pos h1]; exact getBaseId_of_no_suffix (h h1)
  · rw [if_neg h1]; exact getBaseId_natToChars_suffix id c

/-- **C5, witness** for the amended round-trip theorem at the concrete item
id `"note"` with 3 chunks, ordinal 2. -/
theorem getBaseId_mkChunkId_witness :
    (3 = 1 → hasChunkSuffix ['n', 'o', 't', 'e'] = false) ∧
      getBaseId (mkChunkId ['n', 'o', 't', 'e'] 3 2) = ['n', 'o', 't', 'e'] :=
  ⟨by decide, getBaseId_mkChunkId ['n', 'o', 't', 'e'] 3 2 (by decide)⟩

/-!
## Search with chunk deduplication (claim C3)

`EmbeddingService.search` (embedding-service.ts lines 1143–1195).  The
underlying ANN store is an external collaborator: its response to
`vectorSearch(...).limit(n)` is modelled as an arbitrary function
`store : Nat → List VecRow` from the requested limit to the returned rows.
-/

/-- A raw row returned by the store's nearest-neighbour query. -/
structure VecRow where
  id : Str
  distance : ℚ
  context_text : Str
  metadata : Str

/-- A `SearchResult` of the service (lines 1173–1182). -/
structure SearchResult where
  id : Str
  distance : ℚ
  similarity : ℚ
  contextText : Str
  metadata : Option Str

/-- Conversion of a raw row to a `SearchResult` (lines 1166–1182): the
reported id is the row's `baseId`, `similarity = 1 - distance`, and
metadata is absent when the stored string is empty. -/
def rowToResult (row : VecRow) : SearchResult :=
  { id := getBaseId row.id, distance := row.distance,
    similarity := 1 - row.distance, contextText := row.context_text,
    metadata := if row.metadata ≠ [] then some row.metadata else none }

/-- One iteration of the dedup loop (lines 1166–1188): keep, per `baseId`,
the row with the strictly highest similarity seen so far (`Map` semantics:
first insertion fixes the key position). -/
def dedupStep (best : List (Str × SearchResult)) (row : VecRow) :
    List (Str × SearchResult) :=
  let baseId := getBaseId row.id
  let res := rowToResult row
  match alookup best baseId with
  | none => mapSet best baseId res
  | some existing =>
    if existing.similarity < res.similarity then mapSet best baseId res else best

/-- Deduplication, descending sort by similarity, truncation to `k`
(lines 1163–1194). -/
def searchDedup (rows : List VecRow) (k : Nat) : List SearchResult :=
  let best := rows.foldl dedupStep []
  ((best.map Prod.snd).mergeSort
    (fun a b => decide (b.similarity ≤ a.similarity))).take k

/-- `EmbeddingService.search` (lines 1143–1195): embed the query once, ask
the store for `k * 5` nearest rows (line 1155), then deduplicate. -/
def searchModel (store : Nat → List VecRow) (k : Nat) : List SearchResult :=
  searchDedup (store (k * 5)) k

/-!
### Association-list and `mapSet` lemmas
-/

theorem alookup_eq_none_iff {ν : Type} (m : List (Str × ν)) (k : Str) :
    alookup m k = none ↔ ∀ p ∈ m, p.1 ≠ k := by
  induction m with
  | nil => simp [alookup]
  | cons q r ih =>
    by_cases hq : q.1 = k
    · simp only [alookup]
      rw [if_pos hq]
      simp only [List.mem_cons]
      constructor
      · intro h; cases h
      · intro h; exact absurd hq (h q (Or.inl rfl))
    · simp only [alookup]
      rw [if_neg hq, ih]
      simp only [List.mem_cons]
      constructor
      · intro h p hp
        rcases hp with hp | hp
        · rw [hp]; exact hq
        · exact h p hp
      · intro h p hp; exact h p (Or.inr hp)

theorem alookup_of_mem_pairwise {ν : Type} {m : List (Str × ν)}
    (hk : m.Pairwise (fun p q => p.1 ≠ q.1)) {p : Str × ν} (hp : p ∈ m) :
    alookup m p.1 = some p.2 := by
  induction m with
  | nil => cases hp
  | cons q r ih =>
    rcases List.mem_cons.mp hp with heq | hp'
    · subst heq; simp [alookup]
    · have hq : q.1 ≠ p.1 := (List.pairwise_cons.mp hk).1 p hp'
      simp only [alookup]
      rw [if_neg hq]
      exact ih (List.pairwise_cons.mp hk).2 hp'

theorem mapSet_of_absent {ν : Type} {m : List (Str × ν)} {k : Str}
    (h : ∀ p ∈ m, p.1 ≠ k) (v : ν) : mapSet m k v = m ++ [(k, v)] := by
  unfold mapSet
  rw [if_neg]
  simp only [List.any_eq_true]
  rintro ⟨p, hp, hpk⟩
  exact h p hp (by simpa using hpk)

theorem mapSet_of_present {ν : Type} {m : List (Str × ν)} {k : Str}
    (h : ∃ p ∈ m, p.1 = k) (v : ν) :
    mapSet m k v = m.map (fun p => if p.1 = k then (k, v) else p) := by
  unfold mapSet
  rw [if_pos]
  simp only [List.any_eq_true]
  obtain ⟨p, hp, hpk⟩ := h
  exact ⟨p, hp, by simpa using hpk⟩

/-!
### The dedup loop invariant
-/

/-- Invariant of the `bestByBaseId` map after processing the rows `pr`. -/
structure DedupInv (pr : List VecRow) (best : List (Str × SearchResult)) :
    Prop where
  keys : best.Pairwise (fun p q => p.1 ≠ q.1)
  entry : ∀ p ∈ best, p.2.id = p.1 ∧
    ∃ row ∈ pr, getBaseId row.id = p.1 ∧ p.2 = rowToResult row
  maxim : ∀ p ∈ best, ∀ row ∈ pr, getBaseId row.id = p.1 →
    1 - row.distance ≤ p.2.similarity
  cover : ∀ row ∈ pr, ∃ p ∈ best, p.1 = getBaseId row.id

theorem dedupInv_nil : DedupInv [] [] where
  keys := List.Pairwise.nil
  entry := by intro p hp; cases hp
  maxim := by intro p hp; cases hp
  cover := by intro row hr; cases hr

theorem dedupInv_step {pr : List VecRow} {best : List (Str × SearchResult)}
    (inv : DedupInv pr best) (row : VecRow) :
    DedupInv (pr ++ [row]) (dedupStep best row) := by
  have hstep : dedupStep best row =
      match alookup best (getBaseId row.id) with
      | none => mapSet best (getBaseId row.id) (rowToResult row)
      | some existing =>
        if existing.similarity < (rowToResult row).similarity then
          mapSet best (getBaseId row.id) (rowToResult row)
        else best := rfl
  rw [hstep]
  cases hl : alookup best (getBaseId row.id) with
  | none =>
    have habs : ∀ p ∈ best, p.1 ≠ getBaseId row.id :=
      (alookup_eq_none_iff best (getBaseId row.id)).mp hl
    show DedupInv (pr ++ [row]) (mapSet best (getBaseId row.id) (rowToResult row))
    rw [mapSet_of_absent habs]
    refine ⟨?_, ?_, ?_, ?_⟩
    · rw [List.pairwise_append]
      refine ⟨inv.keys, List.pairwise_singleton _ _, ?_⟩
      intro p hp q hq
      rw [List.mem_singleton.mp hq]
      exact habs p hp
    · intro p hp
      rcases List.mem_append.mp hp with hp' | hp'
      · obtain ⟨h1, r, hr, h2, h3⟩ := inv.entry p hp'
        exact ⟨h1, r, List.mem_append_left _ hr, h2, h3⟩
      · rw [List.mem_singleton.mp hp']
        exact ⟨rfl, row, List.mem_append_right _ (List.mem_singleton.mpr rfl),
          rfl, rfl⟩
    · intro p hp r hr hbase
      rcases List.mem_append.mp hp with hp' | hp'
      · rcases List.mem_append.mp hr with hr' | hr'
        · exact inv.maxim p hp' r hr' hbase
        · rw [List.mem_singleton.mp hr'] at hbase
          exact absurd hbase.symm (habs p hp')
      · rw [List.mem_singleton.mp hp'] at hbase ⊢
        rcases List.mem_append.mp hr with hr' | hr'
        · obtain ⟨q, hq, hq1⟩ := inv.cover r hr'
          exact absurd (hq1.trans hbase) (habs q hq)
        · rw [List.mem_singleton.mp hr']
          simp [rowToResult]
    · intro r hr
      rcases List.mem_append.mp hr with hr' | hr'
      · obtain ⟨q, hq, hq1⟩ := inv.cover r hr'
        exact ⟨q, List.mem_append_left _ hq, hq1⟩
      · rw [List.mem_singleton.mp hr']
        exact ⟨(getBaseId row.id, rowToResult row),
          List.mem_append_right _ (List.mem_singleton.mpr rfl), rfl⟩
  | some existing =>
    show DedupInv (pr ++ [row])
      (if existing.similarity < (rowToResult row).similarity then
        mapSet best (getBaseId row.id) (rowToResult row)
      else best)
    by_cases hcmp : existing.similarity < (rowToResult row).similarity
    · rw [if_pos hcmp]
      have hpres : ∃ p ∈ best, p.1 = getBaseId row.id := by
        by_contra hno
        push_neg at hno
        rw [(alookup_eq_none_iff best (getBaseId row.id)).mpr hno] at hl
        cases hl
      rw [mapSet_of_present hpres]
      refine ⟨?_, ?_, ?_, ?_⟩
      · rw [List.pairwise_map]
        refine inv.keys.imp_of_mem ?_
        intro p q _ _ hne
        by_cases hp1 : p.1 = getBaseId row.id
        · by_cases hq1 : q.1 = getBaseId row.id
          · exact absurd (hp1.trans hq1.symm) hne
          · simp only [if_pos hp1, if_neg hq1]
            intro hcontra
            exact hq1 (by simpa using hcontra.symm)
        · by_cases hq1 : q.1 = getBaseId row.id
          · simp only [if_neg hp1, if_pos hq1]
            intro hcontra
            exact hp1 (by simpa using hcontra)
          · simp only [if_neg hp1, if_neg hq1]
            exact hne
      · intro p hp
        obtain ⟨q, hq, hqe⟩ := List.mem_map.mp hp
        by_cases hq1 : q.1 = getBaseId row.id
        · rw [if_pos hq1] at hqe
          subst hqe
          exact ⟨rfl, row, List.mem_append_right _ (List.mem_singleton.mpr rfl),
            rfl, rfl⟩
        · rw [if_neg hq1] at hqe
          subst hqe
          obtain ⟨h1, r, hr, h2, h3⟩ := inv.entry q hq
          exact ⟨h1, r, List.mem_append_left _ hr, h2, h3⟩
      · intro p hp r hr hbase
        obtain ⟨q, hq, hqe⟩ := List.mem_map.mp hp
        by_cases hq1 : q.1 = getBaseId row.id
        · rw [if_pos hq1] at hqe
          subst hqe
          rcases List.mem_append.mp hr with hr' | hr'
          · have hq2 : alookup best q.1 = some q.2 :=
              alookup_of_mem_pairwise inv.keys hq
            rw [hq1] at hq2
            rw [hl] at hq2
            have hqe2 : q.2 = existing := (Option.some.inj hq2).symm
            have hbase' : getBaseId r.id = q.1 := by
              rw [hq1]; simpa using hbase
            have hmax := inv.maxim q hq r hr' hbase'
            rw [hqe2] at hmax
            calc 1 - r.distance ≤ existing.similarity := hmax
              _ ≤ (rowToResult row).similarity := le_of_lt hcmp
          · rw [List.mem_singleton.mp hr'] at hbase ⊢
            simp [rowToResult]
        · rw [if_neg hq1] at hqe
          subst hqe
          rcases List.mem_append.mp hr with hr' | hr'
          · exact inv.maxim q hq r hr' hbase
          · rw [List.mem_singleton.mp hr'] at hbase
            exact absurd hbase.symm hq1
      · intro r hr
        rcases List.mem_append.mp hr with hr' | hr'
        · obtain ⟨q, hq, hq1⟩ := inv.cover r hr'
          by_cases hq2 : q.1 = getBaseId row.id
          · refine ⟨(getBaseId row.id, rowToResult row),
              List.mem_map.mpr ⟨q, hq, by rw [if_pos hq2]⟩, ?_⟩
            rw [← hq2]; exact hq1
          · exact ⟨q, List.mem_map.mpr ⟨q, hq, by rw [if_neg hq2]⟩, hq1⟩
        · rw [List.mem_singleton.mp hr']
          obtain ⟨q, hq, hq1⟩ := hpres
          refine ⟨(getBaseId row.id, rowToResult row), ?_, rfl⟩
          refine List.mem_map.mpr ⟨q, hq, ?_⟩
          rw [if_pos hq1]
    · rw [if_neg hcmp]
      refine ⟨inv.keys, ?_, ?_, ?_⟩
      · intro p hp
        obtain ⟨h1, r, hr, h2, h3⟩ := inv.entry p hp
        exact ⟨h1, r, List.mem_append_left _ hr, h2, h3⟩
      · intro p hp r hr hbase
        rcases List.mem_append.mp hr with hr' | hr'
        · exact inv.maxim p hp r hr' hbase
        · rw [List.mem_singleton.mp hr'] at hbase ⊢
          have hq2 : alookup best p.1 = some p.2 :=
            alookup_of_mem_pairwise inv.keys hp
          rw [← hbase] at hq2
          rw [hl] at hq2
          have hpe : p.2 = existing := (Option.some.inj hq2).symm
          rw [hpe]
          have hle2 : (rowToResult row).similarity ≤ existing.similarity :=
            le_of_not_lt hcmp
          simpa [rowToResult] using hle2
      · intro r hr
        rcases List.mem_append.mp hr with hr' | hr'
        · exact inv.cover r hr'
        · rw [List.mem_singleton.mp hr']
          have hpres : ∃ p ∈ best, p.1 = getBaseId row.id := by
            by_contra hno
            push_neg at hno
            rw [(alookup_eq_none_iff best (getBaseId row.id)).mpr hno] at hl
            cases hl
          obtain ⟨q, hq, hq1⟩ := hpres
          exact ⟨q, hq, hq1⟩

theorem dedupInv_foldl (rows : List VecRow) :
    ∀ (pr : List VecRow) (best : List (Str × SearchResult)),
      DedupInv pr best → DedupInv (pr ++ rows) (rows.foldl dedupStep best) := by
  induction rows with
  | nil => intro pr best inv; simpa using inv
  | cons r rs ih =>
    intro pr best inv
    have h1 := dedupInv_step inv r
    have h2 := ih (pr ++ [r]) (dedupStep best r) h1
    simpa using h2

/-!
### Claim C3
-/

/-- **C3 (confirmed).**  For every store response and every `k`:
the service requests `k * 5` nearest rows from the store before
deduplication (first conjunct, by definition of `searchModel`); the result
never contains two entries with the same `baseId`; every returned entry is
an actual matching row converted with `similarity = 1 - distance`, and its
similarity is at least that of every row of the store response sharing its
`baseId` (so each retained entry is the best match for its `baseId`); the
result is sorted by similarity descending; and it has length at most `k`. -/
theorem search_dedup_spec (store : Nat → List VecRow) (k : Nat) :
    searchModel store k = searchDedup (store (k * 5)) k
    ∧ (searchModel store k).Pairwise (fun a b => a.id ≠ b.id)
    ∧ (∀ res ∈ searchModel store k,
        (∃ row ∈ store (k * 5), getBaseId row.id = res.id ∧
          res = rowToResult row)
        ∧ ∀ row ∈ store (k * 5), getBaseId row.id = res.id →
            1 - row.distance ≤ res.similarity)
    ∧ (searchModel store k).Sorted (fun a b => b.similarity ≤ a.similarity)
    ∧ (searchModel store k).length ≤ k := by
  have inv : DedupInv (store (k * 5)) ((store (k * 5)).foldl dedupStep []) := by
    have h := dedupInv_foldl (store (k * 5)) [] [] dedupInv_nil
    simpa using h
  set rows := store (k * 5) with hrows
  set best := rows.foldl dedupStep [] with hbest
  have hperm : ((best.map Prod.snd).mergeSort
      (fun a b => decide (b.similarity ≤ a.similarity))).Perm
      (best.map Prod.snd) := List.mergeSort_perm _ _
  have hmem_out : ∀ res ∈ searchModel store k, ∃ p ∈ best, p.2 = res := by
    intro res hres
    have h1 : res ∈ (best.map Prod.snd).mergeSort
        (fun a b => decide (b.similarity ≤ a.similarity)) :=
      (List.take_sublist _ _).mem hres
    have h2 : res ∈ best.map Prod.snd := hperm.mem_iff.mp h1
    obtain ⟨p, hp, hpe⟩ := List.mem_map.mp h2
    exact ⟨p, hp, hpe⟩
  refine ⟨rfl, ?_, ?_, ?_, ?_⟩
  · -- at most one entry per baseId
    have hpw : best.Pairwise (fun p q => p.2.id ≠ q.2.id) := by
      refine inv.keys.imp_of_mem ?_
      intro p q hpm hqm hne
      rw [(inv.entry p hpm).1, (inv.entry q hqm).1]
      exact hne
    have hpw2 : (best.map Prod.snd).Pairwise (fun a b => a.id ≠ b.id) :=
      List.pairwise_map.mpr hpw
    have hpw3 := (hperm.pairwise_iff (fun h => h.symm)).mpr hpw2
    exact hpw3.sublist (List.take_sublist _ _)
  · intro res hres
    obtain ⟨p, hp, hpe⟩ := hmem_out res hres
    obtain ⟨hid, row, hrow, hbase2, hval⟩ := inv.entry p hp
    constructor
    · refine ⟨row, hrow, ?_, ?_⟩
      · rw [hbase2, ← hpe, hid]
      · rw [← hpe, hval]
    · intro row' hrow' hbase'
      have : getBaseId row'.id = p.1 := by rw [hbase', ← hpe, hid]
      have h := inv.maxim p hp row' hrow' this
      rw [hpe] at h
      exact h
  · -- sorted by similarity descending
    have hs := @List.sorted_mergeSort SearchResult
      (fun a b : SearchResult => decide (b.similarity ≤ a.similarity))
      (by intro a b c hab hbc
          simp only [decide_eq_true_eq] at *
          exact le_trans hbc hab)
      (by intro a b
          simp only [Bool.or_eq_true, decide_eq_true_eq]
          exact le_total b.similarity a.similarity)
      (best.map Prod.snd)
    have hs2 : ((best.map Prod.snd).mergeSort
        (fun a b => decide (b.similarity ≤ a.similarity))).Pairwise
        (fun a b : SearchResult => b.similarity ≤ a.similarity) :=
      hs.imp (fun h => by simpa using h)
    exact hs2.sublist (List.take_sublist _ _)
  · show (((best.map Prod.snd).mergeSort
      (fun a b => decide (b.similarity ≤ a.similarity))).take k).length ≤ k
    exact List.length_take_le k _

/-!
## Federated search (claims C8, C9)

`UnifiedSearchService` (unified-search-service.ts) with `parseSourceId`
from `types.ts`.  A registered source's `search` capability is an arbitrary
function returning `Except Unit` results: `.error ()` models a rejected
promise.  `Promise.all` settles with a rejection as soon as any member
rejects and with the list of results otherwise; with the error type `Unit`
this is exactly the sequential propagation of `searchAll` below.
-/

/-- A result coming back from one source's `search`. -/
structure SourceResult where
  id : Str
  similarity : ℚ
  contextText : Option Str

/-- A registered search source (`SearchSource` in types.ts; the optional
`getItem` and `description` fields play no role in the claims). -/
structure USearchSource where
  sourceId : Str
  search : Str → Nat → Except Unit (List SourceResult)

/-- A `UnifiedSearchResult` (unified-search-service.ts lines 119–125). -/
structure UnifiedResult where
  source : Str
  id : Str
  similarity : ℚ
  preview : Option Str

/-- `UnifiedSearchOptions`. -/
structure UnifiedOptions where
  sourceTypes : Option (List Str)
  sources : Option (List Str)

/-- The `type` component of a hierarchical `type/instance` source id
(`parseSourceId` in types.ts lines 187–196: `sourceId.split("/")[0]`). -/
def sourceType (sid : Str) : Str := sid.takeWhile (fun c => c ≠ '/')

/-- `registerSource` (lines 52–54): `Map.set`, last write wins. -/
def registerSource (reg : List (Str × USearchSource)) (s : USearchSource) :
    List (Str × USearchSource) :=
  mapSet reg s.sourceId s

/-- The source-selection predicate of `search` (lines 93–110): an exact-id
allow-list `sources` and a `sourceTypes` filter on the type component. -/
def passesFilters (opts : UnifiedOptions) (sid : Str) : Bool :=
  (match opts.sources with
   | some f => decide (sid ∈ f)
   | none => true)
  && (match opts.sourceTypes with
      | some ts => decide (sourceType sid ∈ ts)
      | none => true)

/-- The sources actually queried by a federated search (lines 93–110);
`Map.values()` iterates in key-insertion order. -/
def selectSources (reg : List (Str × USearchSource)) (opts : UnifiedOptions) :
    List USearchSource :=
  (reg.map Prod.snd).filter (fun s => passesFilters opts s.sourceId)

/-- Tagging one source's results with its `sourceId` (lines 119–125). -/
def tagResults (sid : Str) (rs : List SourceResult) : List UnifiedResult :=
  rs.map (fun r =>
    { source := sid, id := r.id, similarity := r.similarity,
      preview := r.contextText })

/-- `Promise.all` over the per-source searches (lines 117–128): the first
rejection rejects the whole aggregate, otherwise all tagged result lists
are collected in source order. -/
def searchAll (query : Str) (k : Nat) :
    List USearchSource → Except Unit (List (List UnifiedResult))
  | [] => Except.ok []
  | s :: rest =>
    match (s.search query k).map (tagResults s.sourceId) with
    | Except.error e => Except.error e
    | Except.ok rs =>
      match searchAll query k rest with
      | Except.error e => Except.error e
      | Except.ok rest' => Except.ok (rs :: rest')

/-- `UnifiedSearchService.search` (lines 85–136): select the sources
passing both filters, query them all, flatten, sort by similarity
descending, truncate to `k`.  (The source returns early with `[]` when no
source is selected, line 112.) -/
def unifiedSearch (reg : List (Str × USearchSource)) (query : Str) (k : Nat)
    (opts : UnifiedOptions) : Except Unit (List UnifiedResult) :=
  let sel := selectSources reg opts
  if sel.length = 0 then Except.ok []
  else
    match searchAll query k sel with
    | Except.error e => Except.error e
    | Except.ok arrays =>
      Except.ok ((arrays.flatten.mergeSort
        (fun a b => decide (b.similarity ≤ a.similarity))).take k)

/-- The result list of one source under the assumption that it succeeded. -/
def resultsOf (s : USearchSource) (query : Str) (k : Nat) : List SourceResult :=
  match s.search query k with
  | Except.ok rs => rs
  | Except.error _ => []

theorem searchAll_ok (query : Str) (k : Nat) :
    ∀ sel : List USearchSource,
      (∀ s ∈ sel, ∃ rs, s.search query k = Except.ok rs) →
      searchAll query k sel =
        Except.ok (sel.map (fun s => tagResults s.sourceId (resultsOf s query k))) := by
  intro sel
  induction sel with
  | nil => intro _; rfl
  | cons s rest ih =>
    intro h
    obtain ⟨rs, hrs⟩ := h s (List.mem_cons_self s rest)
    have hres : resultsOf s query k = rs := by unfold resultsOf; rw [hrs]
    have hrest := ih (fun x hx => h x (List.mem_cons_of_mem s hx))
    unfold searchAll
    rw [hrs, hrest, List.map_cons, hres]
    rfl

theorem searchAll_error (query : Str) (k : Nat) :
    ∀ (sel : List USearchSource) (s : USearchSource), s ∈ sel →
      s.search query k = Except.error () →
      searchAll query k sel = Except.error () := by
  intro sel
  induction sel with
  | nil => intro s hs; cases hs
  | cons a rest ih =>
    intro s hs he
    unfold searchAll
    rcases List.mem_cons.mp hs with heq | hmem
    · subst heq; rw [he]; rfl
    · cases hca : a.search query k with
      | error e => cases e; rfl
      | ok rs => rw [ih s hmem he]; rfl

/-!
### Claim C8
-/

/-- **C8 (confirmed).**  A registered source is queried iff it passes both
filters — membership of its full id in the `sources` allow-list when that
is given, and membership of the `type` component of its hierarchical id in
`sourceTypes` when that is given — and when all selected sources succeed,
the returned list is exactly the flattened per-source results, each tagged
with its originating `sourceId`, globally sorted by similarity descending
and truncated to `k`. -/
theorem unified_search_spec (reg : List (Str × USearchSource)) (query : Str)
    (k : Nat) (opts : UnifiedOptions)
    (hok : ∀ s ∈ selectSources reg opts, ∃ rs, s.search query k = Except.ok rs) :
    (∀ s ∈ reg.map Prod.snd,
      (s ∈ selectSources reg opts ↔
        ((∀ f, opts.sources = some f → s.sourceId ∈ f) ∧
          (∀ ts, opts.sourceTypes = some ts → sourceType s.sourceId ∈ ts))))
    ∧ ∃ out, unifiedSearch reg query k opts = Except.ok out
        ∧ out = ((((selectSources reg opts).map
              (fun s => tagResults s.sourceId (resultsOf s query k))).flatten.mergeSort
            (fun a b => decide (b.similarity ≤ a.similarity))).take k)
        ∧ out.Sorted (fun a b => b.similarity ≤ a.similarity)
        ∧ out.length ≤ k
        ∧ ∀ r ∈ out, ∃ s ∈ selectSources reg opts, r.source = s.sourceId ∧
            ∃ rr ∈ resultsOf s query k, r.id = rr.id ∧
              r.similarity = rr.similarity := by
  constructor
  · intro s hs
    unfold selectSources
    rw [List.mem_filter]
    unfold passesFilters
    constructor
    · rintro ⟨-, hpass⟩
      rw [Bool.and_eq_true] at hpass
      constructor
      · intro f hf
        rw [hf] at hpass
        exact of_decide_eq_true hpass.1
      · intro ts hts
        rw [hts] at hpass
        exact of_decide_eq_true hpass.2
    · rintro ⟨h1, h2⟩
      refine ⟨hs, ?_⟩
      rw [Bool.and_eq_true]
      constructor
      · cases hf : opts.sources with
        | none => rfl
        | some f => exact decide_eq_true (h1 f hf)
      · cases hts : opts.sourceTypes with
        | none => rfl
        | some ts => exact decide_eq_true (h2 ts hts)
  · set sel := selectSources reg opts with hsel
    set merged := ((sel.map
        (fun s => tagResults s.sourceId (resultsOf s query k))).flatten.mergeSort
      (fun a b => decide (b.similarity ≤ a.similarity))).take k with hmerged
    have hout : unifiedSearch reg query k opts = Except.ok merged := by
      unfold unifiedSearch
      rw [← hsel]
      by_cases hnil : sel.length = 0
      · rw [if_pos hnil]
        have hemp : sel = [] := List.length_eq_zero.mp hnil
        rw [hmerged, hemp]
        simp
      · rw [if_neg hnil, searchAll_ok query k sel hok]
    refine ⟨merged, hout, rfl, ?_, ?_, ?_⟩
    · have hs := @List.sorted_mergeSort UnifiedResult
        (fun a b : UnifiedResult => decide (b.similarity ≤ a.similarity))
        (by intro a b c hab hbc
            simp only [decide_eq_true_eq] at *
            exact le_trans hbc hab)
        (by intro a b
            simp only [Bool.or_eq_true, decide_eq_true_eq]
            exact le_total b.similarity a.similarity)
        ((sel.map (fun s => tagResults s.sourceId (resultsOf s query k))).flatten)
      have hs2 := hs.imp
        (fun h => by simpa using h :
          ∀ {a b : UnifiedResult},
            (fun a b : UnifiedResult =>
              decide (b.similarity ≤ a.similarity)) a b = true →
            b.similarity ≤ a.similarity)
      exact hs2.sublist (List.take_sublist _ _)
    · rw [hmerged]
      exact List.length_take_le k _
    · intro r hr
      have h1 : r ∈ (sel.map
          (fun s => tagResults s.sourceId (resultsOf s query k))).flatten.mergeSort
          (fun a b => decide (b.similarity ≤ a.similarity)) :=
        (List.take_sublist _ _).mem hr
      have h2 : r ∈ (sel.map
          (fun s => tagResults s.sourceId (resultsOf s query k))).flatten :=
        (List.mergeSort_perm _ _).mem_iff.mp h1
      obtain ⟨l, hl, hrl⟩ := List.mem_flatten.mp h2
      obtain ⟨s, hsmem, hse⟩ := List.mem_map.mp hl
      subst hse
      obtain ⟨rr, hrr, hre⟩ := List.mem_map.mp hrl
      subst hre
      exact ⟨s, hsmem, rfl, rr, hrr, rfl, rfl⟩

/-!
### Concrete sources for the federation examples
-/

/-- Example source `"tana/main"` with two items (spec §8 federation
example). -/
def tanaMain : USearchSource where
  sourceId := ['t', 'a', 'n', 'a', '/', 'm', 'a', 'i', 'n']
  search := fun _ _ => Except.ok
    [{ id := ['t', '1'], similarity := 9 / 10, contextText := none },
     { id := ['t', '2'], similarity := 7 / 10, contextText := none }]

/-- Example source `"email/work"` with one item. -/
def emailWork : USearchSource where
  sourceId := ['e', 'm', 'a', 'i', 'l', '/', 'w', 'o', 'r', 'k']
  search := fun _ _ => Except.ok
    [{ id := ['e', '1'], similarity := 8 / 10, contextText := none }]

/-- Example source `"email/work"` whose search promise rejects. -/
def emailWorkFailing : USearchSource where
  sourceId := ['e', 'm', 'a', 'i', 'l', '/', 'w', 'o', 'r', 'k']
  search := fun _ _ => Except.error ()

/-- Registry with the two healthy example sources. -/
def exampleRegistry : List (Str × USearchSource) :=
  registerSource (registerSource [] tanaMain) emailWork

/-- Registry where the second registered source fails. -/
def failingRegistry : List (Str × USearchSource) :=
  registerSource (registerSource [] tanaMain) emailWorkFailing

/-- Filter options `sourceTypes: ["tana"]` of the spec's federation
example. -/
def exOpts : UnifiedOptions where
  sourceTypes := some [['t', 'a', 'n', 'a']]
  sources := none

/-- An example query string. -/
def exQuery : Str := ['q']

/-- **C8, witness** at the spec's federation-filtering example: sources
`"tana/main"` (2 items) and `"email/work"` (1 item) registered, querying
with `sourceTypes: ["tana"]`. -/
theorem unified_search_spec_witness :
    (∀ s ∈ selectSources exampleRegistry exOpts,
      ∃ rs, s.search exQuery 5 = Except.ok rs)
    ∧ ((∀ s ∈ exampleRegistry.map Prod.snd,
        (s ∈ selectSources exampleRegistry exOpts ↔
          ((∀ f, exOpts.sources = some f → s.sourceId ∈ f) ∧
            (∀ ts, exOpts.sourceTypes = some ts →
              sourceType s.sourceId ∈ ts))))
      ∧ ∃ out, unifiedSearch exampleRegistry exQuery 5 exOpts = Except.ok out
          ∧ out = ((((selectSources exampleRegistry exOpts).map
                (fun s => tagResults s.sourceId
                  (resultsOf s exQuery 5))).flatten.mergeSort
              (fun a b => decide (b.similarity ≤ a.similarity))).take 5)
          ∧ out.Sorted (fun a b => b.similarity ≤ a.similarity)
          ∧ out.length ≤ 5
          ∧ ∀ r ∈ out, ∃ s ∈ selectSources exampleRegistry exOpts,
              r.source = s.sourceId ∧
              ∃ rr ∈ resultsOf s exQuery 5, r.id = rr.id ∧
                r.similarity = rr.similarity) := by
  have hok : ∀ s ∈ selectSources exampleRegistry exOpts,
      ∃ rs, s.search exQuery 5 = Except.ok rs := by
    intro s hs
    rw [show selectSources exampleRegistry exOpts = [tanaMain] from rfl] at hs
    have heq := List.mem_singleton.mp hs
    subst heq
    exact ⟨_, rfl⟩
  exact ⟨hok, unified_search_spec exampleRegistry exQuery 5 exOpts hok⟩

/-!
### Claim C9
-/

/-- **C9, counterexample.**  With two registered sources, one healthy
(`"tana/main"`, 2 items) and one whose search rejects, the federated search
does **not** return the ranked results of the healthy source: the whole
call rejects (`Promise.all` with no per-source error handling,
unified-search-service.ts lines 117–128). -/
theorem federated_isolation_cex :
    unifiedSearch failingRegistry exQuery 5
        { sourceTypes := none, sources := none } = Except.error ()
    ∧ ∀ out : List UnifiedResult,
        unifiedSearch failingRegistry exQuery 5
          { sourceTypes := none, sources := none } ≠ Except.ok out := by
  have herr : unifiedSearch failingRegistry exQuery 5
      { sourceTypes := none, sources := none } = Except.error () := rfl
  refine ⟨herr, ?_⟩
  intro out h
  rw [herr] at h
  cases h

/-- **C9, amended.**  If any selected source's search fails, the whole
federated `search` call fails (the rejection propagates through
`Promise.all`); results are returned only when every selected source
succeeds.  Per-source failure isolation is *not* implemented. -/
theorem unified_search_failure_propagates (reg : List (Str × USearchSource))
    (query : Str) (k : Nat) (opts : UnifiedOptions) (s : USearchSource)
    (hs : s ∈ selectSources reg opts)
    (herr : s.search query k = Except.error ()) :
    unifiedSearch reg query k opts = Except.error () := by
  have hlen : ¬ (selectSources reg opts).length = 0 := by
    intro h0
    have hnil : selectSources reg opts = [] := List.length_eq_zero.mp h0
    rw [hnil] at hs
    cases hs
  unfold unifiedSearch
  rw [if_neg hlen, searchAll_error query k (selectSources reg opts) s hs herr]

/-- **C9, witness** for the amended failure-propagation theorem at the
concrete two-source registry with one failing source. -/
theorem unified_search_failure_witness :
    (emailWorkFailing ∈ selectSources failingRegistry
        { sourceTypes := none, sources := none }
      ∧ emailWorkFailing.search exQuery 5 = Except.error ())
    ∧ unifiedSearch failingRegistry exQuery 5
        { sourceTypes := none, sources := none } = Except.error () := by
  have hmem : emailWorkFailing ∈ selectSources failingRegistry
      { sourceTypes := none, sources := none } := by
    rw [show selectSources failingRegistry { sourceTypes := none, sources := none } =
      [tanaMain, emailWorkFailing] from rfl]
    exact List.mem_cons_of_mem _ (List.mem_singleton.mpr rfl)
  exact ⟨⟨hmem, rfl⟩,
    unified_search_failure_propagates failingRegistry exQuery 5
      { sourceTypes := none, sources := none } emailWorkFailing hmem rfl⟩

/-!
## Maintenance (claim C7)

`getDiagnostics` (embedding-service.ts lines 1440–1476) and the index
rebuild step of `maintain` (lines 1563–1620).  The inputs coming from the
external store (`indexStats()`: `numIndexedRows`/`numUnindexedRows`, and
`countRows()`) are parameters; `stats = none` models "no vector index
exists".  The percentage arithmetic is done on IEEE doubles in the source
and on `ℚ` here; on the values of the claims the two agree (in particular
`(100/1000)*100` is exactly `10` in both).
-/

/-- The `index` component of `DatabaseDiagnostics`. -/
structure IndexDiag where
  numIndexedRows : Nat
  numUnindexedRows : Nat
  stalePercent : ℚ
  needsRebuild : Bool

/-- Index diagnostics (embedding-service.ts lines 1450–1463):
`stalePercent = (unindexed / (indexed + unindexed)) * 100` (0 when there are
no rows), `needsRebuild = stalePercent > 10` (hardcoded default 10 %
threshold, strict comparison). -/
def diagnoseIndex : Option (Nat × Nat) → Option IndexDiag
  | none => none
  | some s =>
    let total : Nat := s.1 + s.2
    let stalePercent : ℚ :=
      if 0 < total then ((s.2 : ℚ) / (total : ℚ)) * 100 else 0
    some { numIndexedRows := s.1, numUnindexedRows := s.2,
           stalePercent := stalePercent,
           needsRebuild := decide (stalePercent > 10) }

/-- The decision of `maintain`'s index step (embedding-service.ts lines
1574–1616): when index stats exist, rebuild iff
`stalePercent = unindexed / (indexed + unindexed)` (0 when no rows) strictly
exceeds `indexStaleThreshold`; when no index exists, rebuild iff the table
has rows. -/
def maintainIndexRebuild (stats : Option (Nat × Nat)) (rowCount : Nat)
    (indexStaleThreshold : ℚ) : Bool :=
  match stats with
  | some s =>
    let total : Nat := s.1 + s.2
    let stalePercent : ℚ := if 0 < total then (s.2 : ℚ) / (total : ℚ) else 0
    decide (stalePercent > indexStaleThreshold)
  | none => decide (0 < rowCount)

/-!
### Claim C7
-/

/-- **C7, counterexample.**  With `numIndexedRows = 900`,
`numUnindexedRows = 100` and the default threshold, `stalePercent` is
exactly 10 — but the comparisons are strict, so `needsRebuild` is `false`
and `maintain()` does **not** rebuild, contradicting the claim that
`needsRebuild = true` and that `maintain()` rebuilds at exactly 10 %. -/
theorem maintenance_threshold_cex :
    diagnoseIndex (some (900, 100)) =
      some { numIndexedRows := 900, numUnindexedRows := 100,
             stalePercent := 10, needsRebuild := false } ∧
      maintainIndexRebuild (some (900, 100)) 1000 (1 / 10) = false := by
  constructor
  · unfold diagnoseIndex
    have hval : (((100 : Nat) : ℚ) / (((900 + 100 : Nat) : Nat) : ℚ)) * 100 = 10 := by
      norm_num
    simp only [hval]
    norm_num
  · unfold maintainIndexRebuild
    have hval : ((100 : Nat) : ℚ) / (((900 + 100 : Nat) : Nat) : ℚ) = 1 / 10 := by
      norm_num
    simp only [hval]
    norm_num

/-- **C7, amended.**  `diagnose` reports
`stalePercent = (unindexed / (indexed + unindexed)) * 100` and
`needsRebuild` iff that percentage **strictly** exceeds 10; `maintain`
rebuilds iff the staleness fraction strictly exceeds the threshold, or no
index exists while rows are present.  At `900/100` the percentage is
exactly 10, so `needsRebuild = false` and no rebuild is triggered; only a
strictly larger unindexed share (e.g. `899/101`) triggers a rebuild. -/
theorem maintenance_threshold (ni nu rowCount : Nat) (θ : ℚ)
    (h : 0 < ni + nu) :
    diagnoseIndex (some (ni, nu)) =
      some { numIndexedRows := ni, numUnindexedRows := nu,
             stalePercent := ((nu : ℚ) / ((ni + nu : Nat) : ℚ)) * 100,
             needsRebuild :=
               decide (((nu : ℚ) / ((ni + nu : Nat) : ℚ)) * 100 > 10) }
    ∧ (maintainIndexRebuild (some (ni, nu)) rowCount θ = true ↔
        (nu : ℚ) / ((ni + nu : Nat) : ℚ) > θ)
    ∧ maintainIndexRebuild none rowCount θ = decide (0 < rowCount) := by
  refine ⟨?_, ?_, rfl⟩
  · unfold diagnoseIndex
    simp only [if_pos h]
  · unfold maintainIndexRebuild
    simp only [if_pos h, decide_eq_true_eq]

/-- **C7, witness** for the amended theorem at `899` indexed / `101`
unindexed rows with the default threshold `0.1` (strictly above
threshold). -/
theorem maintenance_threshold_witness :
    (0 < 899 + 101) ∧
      (diagnoseIndex (some (899, 101)) =
        some { numIndexedRows := 899, numUnindexedRows := 101,
               stalePercent := ((101 : ℚ) / (((899 + 101 : Nat)) : ℚ)) * 100,
               needsRebuild :=
                 decide ((((101 : Nat) : ℚ) / (((899 + 101 : Nat)) : ℚ)) * 100 > 10) }
      ∧ (maintainIndexRebuild (some (899, 101)) 1000 (1 / 10) = true ↔
          ((101 : Nat) : ℚ) / (((899 + 101 : Nat)) : ℚ) > 1 / 10)
      ∧ maintainIndexRebuild none 1000 (1 / 10) = decide (0 < 1000)) :=
  ⟨by decide, maintenance_threshold 899 101 1000 (1 / 10) (by decide)⟩

/-!
## The embedding pipeline (claims C1, C2, C4, C6)

`EmbeddingService.embedBatch` (embedding-service.ts lines 704–1027),
together with `storeEmbeddingsBatch` (1077–1131) and `deleteByIds`
(1263–1277).  The LanceDB table is a list of records (`none` = the table
has not been created yet); `add` appends, `mergeInsert("id")` upserts,
`delete(id = 'a' OR ...)` removes all rows whose id is in the list.
`errorSamples` and the `rate`/`currentItem` progress fields are omitted
(no claim concerns them); a `Progress` entry in `reports` corresponds to
one `onProgress` invocation.
-/

/-- `ItemToEmbed`: metadata is carried as its (deterministic) JSON
serialization. -/
structure Item where
  id : Str
  text : Str
  contextText : Option Str
  metadata : Option Str

/-- `item.contextText || item.text` (line 794): JavaScript `||` treats the
empty string as falsy. -/
def textToEmbed (it : Item) : Str :=
  match it.contextText with
  | some ct => if ct = [] then it.text else ct
  | none => it.text

/-- A stored LanceDB row (`EmbeddingRecord`, lines 483–493). -/
structure EmbRecord (V : Type) where
  id : Str
  text_hash : Str
  context_text : Str
  model : Str
  dimensions : Nat
  metadata : Str
  created_at : Nat
  updated_at : Nat
  vector : V

/-- The embedding-provider collaborator: `embed(texts)` returns
`texts.map embedOne` when the call succeeds. -/
structure Provider (V : Type) where
  model : Str
  dimensions : Nat
  maxBatchSize : Nat
  embedOne : Str → V

/-- The three structures built by the change-detection scan
(lines 730–784): `baseHash` keeps the first-seen hash per `baseId`,
`existingIds` all stored ids, `chunksOf` the stored chunk ids per
`baseId`, in scan order. -/
structure ChangeIndex where
  baseHash : List (Str × Str)
  existingIds : List Str
  chunksOf : List (Str × List Str)

/-- The empty change index. -/
def emptyChangeIndex : ChangeIndex := ⟨[], [], []⟩

/-- `existingChunks.get(baseId)!.push(id)` with create-if-absent
(lines 764–767). -/
def appendChunk (m : List (Str × List Str)) (k x : Str) :
    List (Str × List Str) :=
  match alookup m k with
  | some _ => m.map (fun p => if p.1 = k then (p.1, p.2 ++ [x]) else p)
  | none => m ++ [(k, [x])]

/-- Processing one scanned `(id, text_hash)` row (lines 751–770). -/
def scanStep (ci : ChangeIndex) (id textHash : Str) : ChangeIndex :=
  let baseId := getBaseId id
  { baseHash :=
      match alookup ci.baseHash baseId with
      | some _ => ci.baseHash
      | none => ci.baseHash ++ [(baseId, textHash)]
    existingIds := insertSet ci.existingIds id
    chunksOf := appendChunk ci.chunksOf baseId id }

/-- The streaming scan over the existing table (lines 744–776). -/
def scanTable {V : Type} (rows : List (EmbRecord V)) : ChangeIndex :=
  rows.foldl (fun ci r => scanStep ci r.id r.text_hash) emptyChangeIndex

/-- `if (!forceAll && this.table) { ...scan... }` (line 736): under
`forceAll`, or when the table does not exist, the change index stays
empty. -/
def loadChangeIndex {V : Type} (forceAll : Bool) :
    Option (List (EmbRecord V)) → ChangeIndex
  | some rows => if forceAll then emptyChangeIndex else scanTable rows
  | none => emptyChangeIndex

/-- The item partition produced by the filter loop (lines 786–807):
`toEmbed` pairs each kept item with its hash (the source keeps two parallel
arrays `itemsToEmbed`/`itemHashes`). -/
structure FilterResult where
  toEmbed : List (Item × Str)
  skipped : Nat

/-- The filter loop (lines 793–804): an item is re-embedded iff `forceAll`
or the stored hash under its `baseId` differs (`!==`, so a missing entry
also re-embeds). -/
def filterItems (hashFn : Str → Str) (forceAll : Bool) (ci : ChangeIndex)
    (items : List Item) : FilterResult :=
  items.foldl
    (fun acc it =>
      let textHash := hashFn (textToEmbed it)
      let baseId := getBaseId it.id
      if forceAll ∨ alookup ci.baseHash baseId ≠ some textHash then
        { acc with toEmbed := acc.toEmbed ++ [(it, textHash)] }
      else { acc with skipped := acc.skipped + 1 })
    ⟨[], 0⟩

/-- `new Set(itemsToEmbed.map(getBaseId))` (line 810): dedup in insertion
order. -/
def dedupStrs (l : List Str) : List Str := l.foldl insertSet []

/-- The stale chunk ids collected before re-embedding (lines 810–817). -/
def idsToDeleteFor (ci : ChangeIndex) (toEmbed : List (Item × Str)) :
    List Str :=
  (dedupStrs (toEmbed.map (fun q => getBaseId q.1.id))).flatMap
    (fun b =>
      match alookup ci.chunksOf b with
      | some chunks => chunks
      | none => [])

/-- A chunk queued for embedding (`ChunkToEmbed`, lines 830–836). -/
structure ChunkInfo where
  chunkId : Str
  baseId : Str
  text : Str
  textHash : Str
  metadata : Option Str

/-- Chunk expansion of one item (lines 839–867): bare id for a single
chunk, `id + "#" + c` for several. -/
def expandItem (chunkSize chunkOverlap : Nat) (it : Item) (textHash : Str) :
    List ChunkInfo :=
  let tcs := chunkText (textToEmbed it) chunkSize chunkOverlap
  if tcs.length = 1 then
    [{ chunkId := it.id, baseId := it.id, text := tcs.headD [],
       textHash := textHash, metadata := it.metadata }]
  else
    tcs.enum.map (fun q =>
      { chunkId := it.id ++ '#' :: natToChars q.1, baseId := it.id,
        text := q.2, textHash := textHash, metadata := it.metadata })

/-- Chunk expansion of all to-embed items, in order. -/
def expandItems (chunkSize chunkOverlap : Nat) (l : List (Item × Str)) :
    List ChunkInfo :=
  l.flatMap (fun q => expandItem chunkSize chunkOverlap q.1 q.2)

/-- The record stored for a chunk (lines 916–926); absent metadata becomes
the empty-string sentinel. -/
def mkRecord {V : Type} (p : Provider V) (now : Nat) (c : ChunkInfo) (v : V) :
    EmbRecord V :=
  { id := c.chunkId, text_hash := c.textHash, context_text := c.text,
    model := p.model, dimensions := p.dimensions,
    metadata := match c.metadata with | some m => m | none => [],
    created_at := now, updated_at := now, vector := v }

/-- Consecutive slices `slice(i, i + bs)` of the batch loops
(`for (i = 0; i < n; i += bs)`), with provably sufficient fuel; for
`bs = 0` the source loop would not terminate. -/
def toBatchesAux {α : Type} : Nat → Nat → List α → List (List α)
  | 0, _, _ => []
  | _, _, [] => []
  | fuel + 1, bs, a :: l =>
    (a :: l).take bs :: toBatchesAux fuel bs ((a :: l).drop bs)

/-- Partition of a list into consecutive batches of size `bs` (the last may
be shorter). -/
def toBatches {α : Type} (bs : Nat) (l : List α) : List (List α) :=
  toBatchesAux l.length bs l

/-- `mergeInsert("id").whenMatchedUpdateAll().whenNotMatchedInsertAll()`
for one record: update in place, or append. -/
def upsertRecord {V : Type} (t : List (EmbRecord V)) (r : EmbRecord V) :
    List (EmbRecord V) :=
  if t.any (fun x => x.id = r.id) then
    t.map (fun x => if x.id = r.id then r else x)
  else t ++ [r]

/-- The `mergeInsert` path of `storeEmbeddingsBatch` (lines 1114–1130):
update records are upserted in chunks of 500 (semantically a sequential
upsert). -/
def mergeInsertAll {V : Type} (t : List (EmbRecord V))
    (updates : List (EmbRecord V)) : List (EmbRecord V) :=
  (toBatches 500 updates).foldl (fun acc ch => ch.foldl upsertRecord acc) t

/-- `storeEmbeddingsBatch` (lines 1077–1131): empty-batch no-op; table
creation from the first flush; otherwise partition by `existingIds` into an
`add` (append) part and a `mergeInsert` (upsert) part. -/
def storeBatchFlush {V : Type} (existingIds : List Str)
    (table : Option (List (EmbRecord V))) (records : List (EmbRecord V)) :
    Option (List (EmbRecord V)) :=
  if records.length = 0 then table
  else
    match table with
    | none => some records
    | some t =>
      let newRecords := records.filter (fun r => decide (r.id ∉ existingIds))
      let updateRecords := records.filter (fun r => decide (r.id ∈ existingIds))
      some (mergeInsertAll (t ++ newRecords) updateRecords)

/-- A progress snapshot (`BatchProgress`; `rate` and `currentItem`
omitted). -/
structure Progress where
  processed : Nat
  skipped : Nat
  errors : Nat
  total : Nat
  stored : Nat
  bufferSize : Nat
deriving DecidableEq

/-- The state threaded through the chunk-batch loop of `embedBatch`:
the table, the (constant during the loop) `existingIds`, the write buffer,
`stored`, `errors`, the processed-base-ids set, and the traces: sizes of
the store-flush calls issued, progress reports emitted, and the call
counters addressing the success oracles. -/
structure LoopState (V : Type) where
  table : Option (List (EmbRecord V))
  existingIds : List Str
  buffer : List (EmbRecord V)
  stored : Nat
  errors : Nat
  processedBaseIds : List Str
  flushes : List Nat
  reports : List Progress
  provCalls : Nat
  flushCalls : Nat

/-- One step of the record-building loop over a provider batch
(lines 902–930): a chunk with an empty id is counted as an error, any other
chunk produces a record and marks its `baseId` processed. -/
def buildStep {V : Type} (p : Provider V) (now : Nat)
    (acc : List (EmbRecord V) × Nat × List Str) (cv : ChunkInfo × V) :
    List (EmbRecord V) × Nat × List Str :=
  if cv.1.chunkId = [] then (acc.1, acc.2.1 + 1, acc.2.2)
  else (acc.1 ++ [mkRecord p now cv.1 cv.2], acc.2.1,
    insertSet acc.2.2 cv.1.baseId)

/-- Building the records of one successful provider batch: the provider
returns one vector per chunk text. -/
def buildRecords {V : Type} (p : Provider V) (now : Nat) (errors0 : Nat)
    (pbs0 : List Str) (batch : List ChunkInfo) :
    List (EmbRecord V) × Nat × List Str :=
  (batch.zip ((batch.map (fun c => c.text)).map p.embedOne)).foldl
    (buildStep p now) ([], errors0, pbs0)

/-- One store flush (lines 936–961 / 994–1008): on success the buffer is
persisted and `stored` advances by the captured flush size; on failure the
flush size is added to `errors` and the buffer's contents are dropped.
(After a failed *final* flush the source leaves the buffer array in place,
but nothing observes it afterwards; the final report hardcodes
`bufferSize: 0`.) -/
def flushBuffer {V : Type} (flushOk : Nat → Bool) (st : LoopState V) :
    LoopState V :=
  let fs := st.buffer.length
  if flushOk st.flushCalls then
    { st with
      table := storeBatchFlush st.existingIds st.table st.buffer
      buffer := []
      stored := st.stored + fs
      flushes := st.flushes ++ [fs]
      flushCalls := st.flushCalls + 1 }
  else
    { st with
      buffer := []
      errors := st.errors + fs
      flushes := st.flushes ++ [fs]
      flushCalls := st.flushCalls + 1 }

/-- Buffering the freshly built records and flushing at the threshold
(lines 932–962): the updated counters `errs`/`pbs` and records `recs` come
from the record-building loop. -/
def bufferAndFlush {V : Type} (flushOk : Nat → Bool) (storeBatchSize : Nat)
    (st : LoopState V) (recs : List (EmbRecord V)) (errs : Nat)
    (pbs : List Str) : LoopState V :=
  if storeBatchSize ≤ (st.buffer ++ recs).length then
    flushBuffer flushOk
      { st with
        provCalls := st.provCalls + 1
        errors := errs
        processedBaseIds := pbs
        buffer := st.buffer ++ recs }
  else
    { st with
      provCalls := st.provCalls + 1
      errors := errs
      processedBaseIds := pbs
      buffer := st.buffer ++ recs }

/-- One iteration of the provider-batch loop (lines 884–992, without the
progress report): a failed provider call (`catch`, lines 963–971) counts
the whole batch as errors; a successful one builds records, appends them to
the buffer and flushes when the buffer has reached `storeBatchSize`. -/
def processBatch {V : Type} (p : Provider V) (now : Nat)
    (provOk flushOk : Nat → Bool) (storeBatchSize : Nat)
    (st : LoopState V) (batch : List ChunkInfo) : LoopState V :=
  if provOk st.provCalls then
    bufferAndFlush flushOk storeBatchSize st
      (buildRecords p now st.errors st.processedBaseIds batch).1
      (buildRecords p now st.errors st.processedBaseIds batch).2.1
      (buildRecords p now st.errors st.processedBaseIds batch).2.2
  else
    { st with
      provCalls := st.provCalls + 1
      errors := st.errors + batch.length }

/-- The progress snapshot emitted after a batch iteration (lines 977–991).
`processed` counts unique base ids (line 974). -/
def mkProgress {V : Type} (st : LoopState V) (total skipped : Nat) :
    Progress :=
  { processed := st.processedBaseIds.length, skipped := skipped,
    errors := st.errors, total := total, stored := st.stored,
    bufferSize := st.buffer.length }

/-- The provider-batch loop (lines 884–992).  `k` is the batch index, so
the source's `i` is `k * maxBatchSize`; the report condition is
`i % (progressInterval * batchSize) < batchSize` (line 977) — the extra
`≠ 0` guard reflects that in JavaScript `i % 0` is `NaN`, which compares
false. -/
def runBatches {V : Type} (p : Provider V) (now : Nat)
    (provOk flushOk : Nat → Bool)
    (storeBatchSize progressInterval total skipped : Nat) :
    Nat → LoopState V → List (List ChunkInfo) → LoopState V
  | _, st, [] => st
  | k, st, batch :: rest =>
    let st1 := processBatch p now provOk flushOk storeBatchSize st batch
    let st2 :=
      if progressInterval * p.maxBatchSize ≠ 0 ∧
          (k * p.maxBatchSize) % (progressInterval * p.maxBatchSize) <
            p.maxBatchSize then
        { st1 with reports := st1.reports ++ [mkProgress st1 total skipped] }
      else st1
    runBatches p now provOk flushOk storeBatchSize progressInterval total
      skipped (k + 1) st2 rest

/-- `BatchEmbedOptions` (with their defaults as documented:
`progressInterval = 100`, `forceAll = false`, `storeBatchSize = 5000`,
`chunkSize = 30000`, `chunkOverlap = 500`). -/
structure BatchOptions where
  progressInterval : Nat
  forceAll : Bool
  storeBatchSize : Nat
  chunkSize : Nat
  chunkOverlap : Nat

/-- The observable outcome of `embedBatch`: the `BatchEmbedResult` counters,
the final table, and the flush/report traces. -/
structure BatchOutcome (V : Type) where
  processed : Nat
  skipped : Nat
  errors : Nat
  table : Option (List (EmbRecord V))
  flushes : List Nat
  reports : List Progress
  stored : Nat

/-- The deletion of stale chunks before re-embedding (lines 818–827),
guarded by `idsToDelete.length > 0 && this.table`: returns the table and
`existingIds` after `deleteByIds` (an OR'd exact-id delete, lines
1263–1277) and the `existingIds.delete(id)` loop. -/
def deleteStale {V : Type} (ci : ChangeIndex) (idsToDelete : List Str)
    (table0 : Option (List (EmbRecord V))) :
    Option (List (EmbRecord V)) × List Str :=
  if 0 < idsToDelete.length ∧ table0.isSome = true then
    (table0.map (fun t => t.filter (fun r => decide (r.id ∉ idsToDelete))),
      ci.existingIds.filter (fun i => decide (i ∉ idsToDelete)))
  else (table0, ci.existingIds)

/-- The loop state at the start of the provider-batch loop. -/
def initialLoopState {V : Type} (tab : Option (List (EmbRecord V)))
    (exIds : List Str) : LoopState V :=
  ⟨tab, exIds, [], 0, 0, [], [], [], 0, 0⟩

/-- The final flush of the remaining buffer (lines 994–1008). -/
def finalizeBatch {V : Type} (flushOk : Nat → Bool) (st1 : LoopState V) :
    LoopState V :=
  if 0 < st1.buffer.length then flushBuffer flushOk st1 else st1

/-- Packaging the final state into the returned `BatchEmbedResult` plus the
final progress report (lines 1010–1026; `bufferSize: 0` hardcoded, line
1022). -/
def mkOutcome {V : Type} (st2 : LoopState V) (skipped total : Nat) :
    BatchOutcome V :=
  { processed := st2.processedBaseIds.length, skipped := skipped,
    errors := st2.errors, table := st2.table, flushes := st2.flushes,
    reports := st2.reports ++
      [{ processed := st2.processedBaseIds.length, skipped := skipped,
         errors := st2.errors, total := total, stored := st2.stored,
         bufferSize := 0 }],
    stored := st2.stored }

/-- `embedBatch` (lines 704–1027): change-detection scan, filter, deletion
of stale chunks of the items about to be re-embedded, chunk expansion,
provider-batch loop with buffered flushing, final flush, final progress
report. -/
def embedBatchModel {V : Type} (p : Provider V) (hashFn : Str → Str)
    (now : Nat) (provOk flushOk : Nat → Bool)
    (table0 : Option (List (EmbRecord V))) (items : List Item)
    (opts : BatchOptions) : BatchOutcome V :=
  let ci := loadChangeIndex opts.forceAll table0
  let fr := filterItems hashFn opts.forceAll ci items
  let del := deleteStale ci (idsToDeleteFor ci fr.toEmbed) table0
  let chunks := expandItems opts.chunkSize opts.chunkOverlap fr.toEmbed
  let st1 := runBatches p now provOk flushOk opts.storeBatchSize
    opts.progressInterval items.length fr.skipped 0
    (initialLoopState del.1 del.2) (toBatches p.maxBatchSize chunks)
  mkOutcome (finalizeBatch flushOk st1) fr.skipped items.length

/-!
### Lemmas: batching, flushing, record building
-/

theorem toBatchesAux_flatten {α : Type} (bs : Nat) (hbs : 1 ≤ bs) :
    ∀ (fuel : Nat) (l : List α), l.length ≤ fuel →
      (toBatchesAux fuel bs l).flatten = l := by
  intro fuel
  induction fuel with
  | zero =>
    intro l hl
    cases l with
    | nil => rfl
    | cons a t => simp at hl
  | succ fuel ih =>
    intro l hl
    cases l with
    | nil => rfl
    | cons a t =>
      show ((a :: t).take bs :: toBatchesAux fuel bs ((a :: t).drop bs)).flatten =
        a :: t
      have hd : ((a :: t).drop bs).length ≤ fuel := by
        rw [List.length_drop]
        simp only [List.length_cons] at hl ⊢
        omega
      rw [List.flatten_cons, ih ((a :: t).drop bs) hd]
      exact List.take_append_drop bs (a :: t)

theorem toBatches_flatten {α : Type} (bs : Nat) (hbs : 1 ≤ bs) (l : List α) :
    (toBatches bs l).flatten = l :=
  toBatchesAux_flatten bs hbs l.length l (Nat.le_refl _)

theorem toBatches_nil {α : Type} (bs : Nat) : toBatches bs ([] : List α) = [] :=
  rfl

/-- Table contents after appending a batch of records through the store:
`add` on an existing table appends, the first flush on a missing table
creates it. -/
def tableApp {V : Type} :
    Option (List (EmbRecord V)) → List (EmbRecord V) →
      Option (List (EmbRecord V))
  | some t, recs => some (t ++ recs)
  | none, [] => none
  | none, a :: l => some (a :: l)

theorem tableApp_assoc {V : Type} (t : Option (List (EmbRecord V)))
    (a b : List (EmbRecord V)) :
    tableApp (tableApp t a) b = tableApp t (a ++ b) := by
  cases t with
  | some l => simp [tableApp]
  | none =>
    cases a with
    | nil => rfl
    | cons x xs => simp [tableApp]

theorem mergeInsertAll_nil {V : Type} (t : List (EmbRecord V)) :
    mergeInsertAll t [] = t := rfl

theorem storeBatchFlush_all_new {V : Type} (existingIds : List Str)
    (table : Option (List (EmbRecord V))) (records : List (EmbRecord V))
    (hnew : ∀ r ∈ records, r.id ∉ existingIds) :
    storeBatchFlush existingIds table records = tableApp table records := by
  unfold storeBatchFlush
  by_cases hnil : records.length = 0
  · rw [if_pos hnil]
    have hrecs : records = [] := List.length_eq_zero.mp hnil
    subst hrecs
    cases table with
    | some t => simp [tableApp]
    | none => rfl
  · rw [if_neg hnil]
    cases table with
    | none =>
      cases records with
      | nil => simp at hnil
      | cons a l => rfl
    | some t =>
      have hfn : records.filter (fun r => decide (r.id ∉ existingIds)) =
          records := by
        apply List.filter_eq_self.mpr
        intro r hr
        exact decide_eq_true (hnew r hr)
      have hfu : records.filter (fun r => decide (r.id ∈ existingIds)) = [] := by
        apply List.filter_eq_nil_iff.mpr
        intro r hr
        simp only [decide_eq_true_eq]
        exact hnew r hr
      simp only [hfn, hfu, mergeInsertAll_nil]
      rfl

/-- The record built for a chunk under the pure provider model. -/
def chunkRecord {V : Type} (p : Provider V) (now : Nat) (c : ChunkInfo) :
    EmbRecord V :=
  mkRecord p now c (p.embedOne c.text)

theorem buildRecords_all_ok {V : Type} (p : Provider V) (now : Nat) :
    ∀ (batch : List ChunkInfo) (errors0 : Nat) (pbs0 : List Str)
      (recs0 : List (EmbRecord V)),
      (∀ c ∈ batch, c.chunkId ≠ []) →
      (batch.zip ((batch.map (fun c => c.text)).map p.embedOne)).foldl
          (buildStep p now) (recs0, errors0, pbs0) =
        (recs0 ++ batch.map (chunkRecord p now), errors0,
          batch.foldl (fun s c => insertSet s c.baseId) pbs0) := by
  intro batch
  induction batch with
  | nil => intro errors0 pbs0 recs0 _; simp
  | cons c rest ih =>
    intro errors0 pbs0 recs0 hne
    have hzip : ((c :: rest).zip
        (((c :: rest).map (fun c => c.text)).map p.embedOne)) =
        (c, p.embedOne c.text) ::
          (rest.zip ((rest.map (fun c => c.text)).map p.embedOne)) := by
      simp
    rw [hzip, List.foldl_cons]
    have hstep : buildStep p now (recs0, errors0, pbs0) (c, p.embedOne c.text) =
        (recs0 ++ [chunkRecord p now c], errors0, insertSet pbs0 c.baseId) := by
      unfold buildStep
      rw [if_neg (hne c (List.mem_cons_self c rest))]
      rfl
    rw [hstep, ih errors0 (insertSet pbs0 c.baseId) (recs0 ++ [chunkRecord p now c])
      (fun x hx => hne x (List.mem_cons_of_mem c hx))]
    simp

theorem buildRecords_eq {V : Type} (p : Provider V) (now : Nat)
    (errors0 : Nat) (pbs0 : List Str) (batch : List ChunkInfo)
    (hne : ∀ c ∈ batch, c.chunkId ≠ []) :
    buildRecords p now errors0 pbs0 batch =
      (batch.map (chunkRecord p now), errors0,
        batch.foldl (fun s c => insertSet s c.baseId) pbs0) := by
  unfold buildRecords
  rw [buildRecords_all_ok p now batch errors0 pbs0 [] hne]
  simp

theorem tableApp_nil {V : Type} (t : Option (List (EmbRecord V))) :
    tableApp t [] = t := by
  cases t with
  | some l => simp [tableApp]
  | none => rfl

/-!
### The all-success run: the final table is the initial table plus the
chunk records, in order
-/

theorem flushBuffer_ok {V : Type} (flushOk : Nat → Bool) (st : LoopState V)
    (hfl : flushOk st.flushCalls = true) :
    flushBuffer flushOk st =
      { st with
        table := storeBatchFlush st.existingIds st.table st.buffer
        buffer := []
        stored := st.stored + st.buffer.length
        flushes := st.flushes ++ [st.buffer.length]
        flushCalls := st.flushCalls + 1 } := by
  unfold flushBuffer
  rw [if_pos hfl]

theorem processBatch_ok_eq {V : Type} (p : Provider V) (now : Nat)
    (provOk flushOk : Nat → Bool) (sbs : Nat) (st : LoopState V)
    (batch : List ChunkInfo) (hprov : provOk st.provCalls = true)
    (hne : ∀ c ∈ batch, c.chunkId ≠ []) :
    processBatch p now provOk flushOk sbs st batch =
      bufferAndFlush flushOk sbs st (batch.map (chunkRecord p now)) st.errors
        (batch.foldl (fun s c => insertSet s c.baseId) st.processedBaseIds) := by
  unfold processBatch
  rw [if_pos hprov, buildRecords_eq p now st.errors st.processedBaseIds batch hne]

theorem processBatch_fail_eq {V : Type} (p : Provider V) (now : Nat)
    (provOk flushOk : Nat → Bool) (sbs : Nat) (st : LoopState V)
    (batch : List ChunkInfo) (hprov : provOk st.provCalls = false) :
    processBatch p now provOk flushOk sbs st batch =
      { st with
        provCalls := st.provCalls + 1
        errors := st.errors + batch.length } := by
  unfold processBatch
  rw [if_neg]
  rw [hprov]
  exact Bool.false_ne_true

theorem bufferAndFlush_spec {V : Type} (flushOk : Nat → Bool) (sbs : Nat)
    (st : LoopState V) (recs : List (EmbRecord V)) (errs : Nat)
    (pbs : List Str) (hfl : ∀ n, flushOk n = true)
    (hnewall : ∀ r ∈ st.buffer ++ recs, r.id ∉ st.existingIds) :
    ∃ flushed,
      (bufferAndFlush flushOk sbs st recs errs pbs).table =
        tableApp st.table flushed
      ∧ flushed ++ (bufferAndFlush flushOk sbs st recs errs pbs).buffer =
          st.buffer ++ recs
      ∧ (bufferAndFlush flushOk sbs st recs errs pbs).existingIds =
          st.existingIds
      ∧ (bufferAndFlush flushOk sbs st recs errs pbs).errors = errs
      ∧ (bufferAndFlush flushOk sbs st recs errs pbs).stored =
          st.stored + flushed.length
      ∧ (bufferAndFlush flushOk sbs st recs errs pbs).processedBaseIds = pbs := by
  unfold bufferAndFlush
  by_cases hth : sbs ≤ (st.buffer ++ recs).length
  · rw [if_pos hth, flushBuffer_ok flushOk _ (hfl _)]
    refine ⟨st.buffer ++ recs, ?_, by simp, rfl, rfl, rfl, rfl⟩
    exact storeBatchFlush_all_new _ _ _ hnewall
  · rw [if_neg hth]
    exact ⟨[], (tableApp_nil st.table).symm, rfl, rfl, rfl, by simp, rfl⟩

theorem processBatch_all_success {V : Type} (p : Provider V) (now : Nat)
    (provOk flushOk : Nat → Bool) (sbs : Nat) (st : LoopState V)
    (batch : List ChunkInfo)
    (hprov : provOk st.provCalls = true) (hfl : ∀ n, flushOk n = true)
    (hne : ∀ c ∈ batch, c.chunkId ≠ [])
    (hnew : ∀ c ∈ batch, c.chunkId ∉ st.existingIds)
    (hbuf : ∀ r ∈ st.buffer, r.id ∉ st.existingIds) :
    ∃ flushed,
      (processBatch p now provOk flushOk sbs st batch).table =
        tableApp st.table flushed
      ∧ flushed ++ (processBatch p now provOk flushOk sbs st batch).buffer =
          st.buffer ++ batch.map (chunkRecord p now)
      ∧ (processBatch p now provOk flushOk sbs st batch).existingIds =
          st.existingIds
      ∧ (processBatch p now provOk flushOk sbs st batch).errors = st.errors
      ∧ (processBatch p now provOk flushOk sbs st batch).stored =
          st.stored + flushed.length := by
  have hrecnew : ∀ r ∈ st.buffer ++ batch.map (chunkRecord p now),
      r.id ∉ st.existingIds := by
    intro r hr
    rcases List.mem_append.mp hr with hr' | hr'
    · exact hbuf r hr'
    · obtain ⟨c, hc, hce⟩ := List.mem_map.mp hr'
      subst hce
      exact hnew c hc
  rw [processBatch_ok_eq p now provOk flushOk sbs st batch hprov hne]
  obtain ⟨flushed, h1, h2, h3, h4, h5, h6⟩ :=
    bufferAndFlush_spec flushOk sbs st (batch.map (chunkRecord p now))
      st.errors (batch.foldl (fun s c => insertSet s c.baseId)
        st.processedBaseIds) hfl hrecnew
  exact ⟨flushed, h1, h2, h3, h4, h5⟩

theorem runBatches_all_success {V : Type} (p : Provider V) (now : Nat)
    (provOk flushOk : Nat → Bool) (sbs pi total skipped : Nat)
    (hprov : ∀ n, provOk n = true) (hfl : ∀ n, flushOk n = true) :
    ∀ (bl : List (List ChunkInfo)) (k : Nat) (st : LoopState V),
      (∀ c ∈ bl.flatten, c.chunkId ≠ []) →
      (∀ c ∈ bl.flatten, c.chunkId ∉ st.existingIds) →
      (∀ r ∈ st.buffer, r.id ∉ st.existingIds) →
      ∃ flushed,
        (runBatches p now provOk flushOk sbs pi total skipped k st bl).table =
          tableApp st.table flushed
        ∧ flushed ++
            (runBatches p now provOk flushOk sbs pi total skipped k st bl).buffer =
            st.buffer ++ (bl.flatten).map (chunkRecord p now)
        ∧ (runBatches p now provOk flushOk sbs pi total skipped k st bl).existingIds =
            st.existingIds
        ∧ (runBatches p now provOk flushOk sbs pi total skipped k st bl).errors =
            st.errors
        ∧ (runBatches p now provOk flushOk sbs pi total skipped k st bl).stored =
            st.stored + flushed.length := by
  intro bl
  induction bl with
  | nil =>
    intro k st _ _ hbuf
    have hrn : runBatches p now provOk flushOk sbs pi total skipped k st [] =
        st := rfl
    rw [hrn]
    exact ⟨[], (tableApp_nil st.table).symm, by simp, rfl, rfl, by simp⟩
  | cons batch rest ih =>
    intro k st hne hnew hbuf
    have hneb : ∀ c ∈ batch, c.chunkId ≠ [] := by
      intro c hc
      exact hne c (by rw [List.flatten_cons]; exact List.mem_append_left _ hc)
    have hnewb : ∀ c ∈ batch, c.chunkId ∉ st.existingIds := by
      intro c hc
      exact hnew c (by rw [List.flatten_cons]; exact List.mem_append_left _ hc)
    obtain ⟨f1, ht1, hb1, he1, her1, hs1⟩ :=
      processBatch_all_success p now provOk flushOk sbs st batch
        (hprov st.provCalls) hfl hneb hnewb hbuf
    set st1 := processBatch p now provOk flushOk sbs st batch with hst1
    set st2 :=
      (if pi * p.maxBatchSize ≠ 0 ∧
          (k * p.maxBatchSize) % (pi * p.maxBatchSize) < p.maxBatchSize then
        { st1 with reports := st1.reports ++ [mkProgress st1 total skipped] }
      else st1) with hst2
    have hsame : st2.table = st1.table ∧ st2.buffer = st1.buffer ∧
        st2.existingIds = st1.existingIds ∧ st2.errors = st1.errors ∧
        st2.stored = st1.stored ∧ st2.provCalls = st1.provCalls := by
      rw [hst2]
      by_cases hcond : pi * p.maxBatchSize ≠ 0 ∧
          (k * p.maxBatchSize) % (pi * p.maxBatchSize) < p.maxBatchSize
      · rw [if_pos hcond]; exact ⟨rfl, rfl, rfl, rfl, rfl, rfl⟩
      · rw [if_neg hcond]; exact ⟨rfl, rfl, rfl, rfl, rfl, rfl⟩
    have hrun : runBatches p now provOk flushOk sbs pi total skipped k st
        (batch :: rest) =
        runBatches p now provOk flushOk sbs pi total skipped (k + 1) st2 rest := by
      rw [hst2, hst1]; rfl
    have hnewr : ∀ c ∈ rest.flatten, c.chunkId ∉ st2.existingIds := by
      intro c hc
      rw [hsame.2.2.1, he1]
      exact hnew c (by rw [List.flatten_cons]; exact List.mem_append_right _ hc)
    have hbuf2 : ∀ r ∈ st2.buffer, r.id ∉ st2.existingIds := by
      intro r hr
      rw [hsame.2.2.1, he1]
      rw [hsame.2.1] at hr
      have hrin : r ∈ f1 ++ st1.buffer := List.mem_append_right f1 hr
      rw [hb1] at hrin
      exact (fun h => h) (by
        rcases List.mem_append.mp hrin with h' | h'
        · exact hbuf r h'
        · obtain ⟨c, hc, hce⟩ := List.mem_map.mp h'
          subst hce
          exact hnewb c hc)
    obtain ⟨f2, ht2, hb2, he2, her2, hs2⟩ := ih (k + 1) st2
      (fun c hc => hne c
        (by rw [List.flatten_cons]; exact List.mem_append_right _ hc))
      hnewr hbuf2
    refine ⟨f1 ++ f2, ?_, ?_, ?_, ?_, ?_⟩
    · rw [hrun, ht2, hsame.1, ht1, tableApp_assoc]
    · rw [hrun, List.append_assoc, hb2, hsame.2.1]
      rw [← List.append_assoc, hb1]
      simp [List.flatten_cons]
    · rw [hrun, he2, hsame.2.2.1, he1]
    · rw [hrun, her2, hsame.2.2.2.1, her1]
    · rw [hrun, hs2, hsame.2.2.2.2.1, hs1]
      simp [Nat.add_assoc]

/-- Unfolding `embedBatchModel` into its phases. -/
theorem embedBatchModel_eq {V : Type} (p : Provider V) (hashFn : Str → Str)
    (now : Nat) (provOk flushOk : Nat → Bool)
    (table0 : Option (List (EmbRecord V))) (items : List Item)
    (opts : BatchOptions) :
    embedBatchModel p hashFn now provOk flushOk table0 items opts =
      mkOutcome
        (finalizeBatch flushOk
          (runBatches p now provOk flushOk opts.storeBatchSize
            opts.progressInterval items.length
            (filterItems hashFn opts.forceAll
              (loadChangeIndex opts.forceAll table0) items).skipped 0
            (initialLoopState
              (deleteStale (loadChangeIndex opts.forceAll table0)
                (idsToDeleteFor (loadChangeIndex opts.forceAll table0)
                  (filterItems hashFn opts.forceAll
                    (loadChangeIndex opts.forceAll table0) items).toEmbed)
                table0).1
              (deleteStale (loadChangeIndex opts.forceAll table0)
                (idsToDeleteFor (loadChangeIndex opts.forceAll table0)
                  (filterItems hashFn opts.forceAll
                    (loadChangeIndex opts.forceAll table0) items).toEmbed)
                table0).2)
            (toBatches p.maxBatchSize
              (expandItems opts.chunkSize opts.chunkOverlap
                (filterItems hashFn opts.forceAll
                  (loadChangeIndex opts.forceAll table0) items).toEmbed))))
        (filterItems hashFn opts.forceAll
          (loadChangeIndex opts.forceAll table0) items).skipped
        items.length := rfl

/-!
### Counting lemmas (claim C4)
-/

theorem bufferAndFlush_counters {V : Type} (flushOk : Nat → Bool) (sbs : Nat)
    (st : LoopState V) (recs : List (EmbRecord V)) (errs : Nat)
    (pbs : List Str) (hfl : ∀ n, flushOk n = true) :
    (bufferAndFlush flushOk sbs st recs errs pbs).errors = errs ∧
      (bufferAndFlush flushOk sbs st recs errs pbs).processedBaseIds = pbs := by
  unfold bufferAndFlush
  by_cases hth : sbs ≤ (st.buffer ++ recs).length
  · rw [if_pos hth, flushBuffer_ok flushOk _ (hfl _)]
    exact ⟨rfl, rfl⟩
  · rw [if_neg hth]
    exact ⟨rfl, rfl⟩

theorem buildRecords_counters {V : Type} (p : Provider V) (now : Nat) :
    ∀ (batch : List ChunkInfo) (recs0 : List (EmbRecord V)) (errors0 : Nat)
      (pbs0 : List Str),
      (∀ c ∈ batch, c.baseId ∉ pbs0) →
      ((batch.map (fun c => c.baseId)).Pairwise (fun a b => a ≠ b)) →
      ((batch.zip ((batch.map (fun c => c.text)).map p.embedOne)).foldl
            (buildStep p now) (recs0, errors0, pbs0)).2.2.length +
          ((batch.zip ((batch.map (fun c => c.text)).map p.embedOne)).foldl
            (buildStep p now) (recs0, errors0, pbs0)).2.1 =
        pbs0.length + errors0 + batch.length
      ∧ ∀ x ∈ ((batch.zip ((batch.map (fun c => c.text)).map p.embedOne)).foldl
            (buildStep p now) (recs0, errors0, pbs0)).2.2,
          x ∈ pbs0 ∨ x ∈ batch.map (fun c => c.baseId) := by
  intro batch
  induction batch with
  | nil => intro recs0 errors0 pbs0 _ _; exact ⟨rfl, fun x hx => Or.inl hx⟩
  | cons c rest ih =>
    intro recs0 errors0 pbs0 hfresh hdist
    have hzip : ((c :: rest).zip
        (((c :: rest).map (fun c => c.text)).map p.embedOne)) =
        (c, p.embedOne c.text) ::
          (rest.zip ((rest.map (fun c => c.text)).map p.embedOne)) := by
      simp
    rw [hzip, List.foldl_cons]
    have hdr : (rest.map (fun c => c.baseId)).Pairwise (fun a b => a ≠ b) :=
      (List.pairwise_cons.mp (by simpa using hdist)).2
    have hhead : ∀ b ∈ rest.map (fun c => c.baseId), c.baseId ≠ b :=
      (List.pairwise_cons.mp (by simpa using hdist)).1
    by_cases hc : c.chunkId = []
    · have hstep : buildStep p now (recs0, errors0, pbs0)
          (c, p.embedOne c.text) = (recs0, errors0 + 1, pbs0) := by
        unfold buildStep
        rw [if_pos hc]
      rw [hstep]
      obtain ⟨h1, h2⟩ := ih recs0 (errors0 + 1) pbs0
        (fun x hx => hfresh x (List.mem_cons_of_mem c hx)) hdr
      refine ⟨?_, ?_⟩
      · simp only [List.length_cons]
        omega
      intro x hx
      rcases h2 x hx with h' | h'
      · exact Or.inl h'
      · exact Or.inr (List.mem_cons_of_mem _ h')
    · have hstep : buildStep p now (recs0, errors0, pbs0)
          (c, p.embedOne c.text) =
          (recs0 ++ [mkRecord p now c (p.embedOne c.text)], errors0,
            pbs0 ++ [c.baseId]) := by
        unfold buildStep
        rw [if_neg hc]
        unfold insertSet
        rw [if_neg (hfresh c (List.mem_cons_self c rest))]
      rw [hstep]
      have hfresh' : ∀ x ∈ rest, x.baseId ∉ pbs0 ++ [c.baseId] := by
        intro x hx hmem
        rcases List.mem_append.mp hmem with h' | h'
        · exact hfresh x (List.mem_cons_of_mem c hx) h'
        · exact hhead x.baseId (List.mem_map_of_mem _ hx)
            (List.mem_singleton.mp h').symm
      obtain ⟨h1, h2⟩ := ih (recs0 ++ [mkRecord p now c (p.embedOne c.text)])
        errors0 (pbs0 ++ [c.baseId]) hfresh' hdr
      constructor
      · rw [h1]
        simp only [List.length_append, List.length_cons, List.length_nil]
        omega
      · intro x hx
        rcases h2 x hx with h' | h'
        · rcases List.mem_append.mp h' with h'' | h''
          · exact Or.inl h''
          · exact Or.inr (by
              rw [List.mem_singleton.mp h'']
              exact List.mem_cons_self _ _)
        · exact Or.inr (List.mem_cons_of_mem _ h')

theorem processBatch_counters {V : Type} (p : Provider V) (now : Nat)
    (provOk flushOk : Nat → Bool) (sbs : Nat) (st : LoopState V)
    (batch : List ChunkInfo) (hfl : ∀ n, flushOk n = true)
    (hfresh : ∀ c ∈ batch, c.baseId ∉ st.processedBaseIds)
    (hdist : (batch.map (fun c => c.baseId)).Pairwise (fun a b => a ≠ b)) :
    (processBatch p now provOk flushOk sbs st batch).processedBaseIds.length +
        (processBatch p now provOk flushOk sbs st batch).errors =
      st.processedBaseIds.length + st.errors + batch.length
    ∧ ∀ x ∈ (processBatch p now provOk flushOk sbs st batch).processedBaseIds,
        x ∈ st.processedBaseIds ∨ x ∈ batch.map (fun c => c.baseId) := by
  unfold processBatch
  by_cases hpc : provOk st.provCalls = true
  · rw [if_pos hpc]
    obtain ⟨he, hp⟩ := bufferAndFlush_counters flushOk sbs st
      (buildRecords p now st.errors st.processedBaseIds batch).1
      (buildRecords p now st.errors st.processedBaseIds batch).2.1
      (buildRecords p now st.errors st.processedBaseIds batch).2.2 hfl
    rw [he, hp]
    exact buildRecords_counters p now batch [] st.errors st.processedBaseIds
      hfresh hdist
  · rw [if_neg hpc]
    exact ⟨by simp [Nat.add_assoc], fun x hx => Or.inl hx⟩

theorem runBatches_counters {V : Type} (p : Provider V) (now : Nat)
    (provOk flushOk : Nat → Bool) (sbs pi total skipped : Nat)
    (hfl : ∀ n, flushOk n = true) :
    ∀ (bl : List (List ChunkInfo)) (k : Nat) (st : LoopState V),
      (∀ c ∈ bl.flatten, c.baseId ∉ st.processedBaseIds) →
      ((bl.flatten.map (fun c => c.baseId)).Pairwise (fun a b => a ≠ b)) →
      (runBatches p now provOk flushOk sbs pi total skipped k st
            bl).processedBaseIds.length +
          (runBatches p now provOk flushOk sbs pi total skipped k st bl).errors =
        st.processedBaseIds.length + st.errors + bl.flatten.length := by
  intro bl
  induction bl with
  | nil => intro k st _ _; rfl
  | cons batch rest ih =>
    intro k st hfresh hdist
    have hflat : (batch :: rest).flatten = batch ++ rest.flatten :=
      List.flatten_cons
    have hmapsplit : (batch ++ rest.flatten).map (fun c => c.baseId) =
        batch.map (fun c => c.baseId) ++
          (rest.flatten).map (fun c => c.baseId) := List.map_append _ _ _
    have hdist' := hdist
    rw [hflat, hmapsplit, List.pairwise_append] at hdist'
    obtain ⟨hdb, hdr, hcross⟩ := hdist'
    obtain ⟨hcount, hsub⟩ := processBatch_counters p now provOk flushOk sbs st
      batch hfl
      (fun c hc => hfresh c (by rw [hflat]; exact List.mem_append_left _ hc))
      hdb
    set st1 := processBatch p now provOk flushOk sbs st batch with hst1
    set st2 :=
      (if pi * p.maxBatchSize ≠ 0 ∧
          (k * p.maxBatchSize) % (pi * p.maxBatchSize) < p.maxBatchSize then
        { st1 with reports := st1.reports ++ [mkProgress st1 total skipped] }
      else st1) with hst2
    have hsame : st2.processedBaseIds = st1.processedBaseIds ∧
        st2.errors = st1.errors := by
      rw [hst2]
      by_cases hcond : pi * p.maxBatchSize ≠ 0 ∧
          (k * p.maxBatchSize) % (pi * p.maxBatchSize) < p.maxBatchSize
      · rw [if_pos hcond]; exact ⟨rfl, rfl⟩
      · rw [if_neg hcond]; exact ⟨rfl, rfl⟩
    have hrun : runBatches p now provOk flushOk sbs pi total skipped k st
        (batch :: rest) =
        runBatches p now provOk flushOk sbs pi total skipped (k + 1) st2 rest := by
      rw [hst2, hst1]; rfl
    have hfresh2 : ∀ c ∈ rest.flatten, c.baseId ∉ st2.processedBaseIds := by
      intro c hc hmem
      rw [hsame.1] at hmem
      rcases hsub c.baseId hmem with h' | h'
      · exact hfresh c (by rw [hflat]; exact List.mem_append_right _ hc) h'
      · exact hcross c.baseId h' c.baseId (List.mem_map_of_mem _ hc) rfl
    have := ih (k + 1) st2 hfresh2 hdr
    rw [hrun, this, hsame.1, hsame.2, hcount]
    rw [hflat]
    simp only [List.length_append]
    omega

/-!
### Filter and expansion lemmas
-/

theorem filterItems_counters (hashFn : Str → Str) (forceAll : Bool)
    (ci : ChangeIndex) :
    ∀ (items : List Item) (acc : FilterResult),
      (items.foldl
          (fun acc it =>
            if forceAll ∨ alookup ci.baseHash (getBaseId it.id) ≠
                some (hashFn (textToEmbed it)) then
              { acc with toEmbed := acc.toEmbed ++ [(it, hashFn (textToEmbed it))] }
            else { acc with skipped := acc.skipped + 1 }) acc).skipped +
        (items.foldl
          (fun acc it =>
            if forceAll ∨ alookup ci.baseHash (getBaseId it.id) ≠
                some (hashFn (textToEmbed it)) then
              { acc with toEmbed := acc.toEmbed ++ [(it, hashFn (textToEmbed it))] }
            else { acc with skipped := acc.skipped + 1 }) acc).toEmbed.length =
      acc.skipped + acc.toEmbed.length + items.length := by
  intro items
  induction items with
  | nil => intro acc; simp
  | cons it rest ih =>
    intro acc
    rw [List.foldl_cons]
    by_cases hcond : forceAll ∨ alookup ci.baseHash (getBaseId it.id) ≠
        some (hashFn (textToEmbed it))
    · rw [if_pos hcond, ih]
      simp only [List.length_append, List.length_cons, List.length_nil]
      omega
    · rw [if_neg hcond, ih]
      simp only [List.length_cons]
      omega

theorem filterItems_count (hashFn : Str → Str) (forceAll : Bool)
    (ci : ChangeIndex) (items : List Item) :
    (filterItems hashFn forceAll ci items).skipped +
        (filterItems hashFn forceAll ci items).toEmbed.length = items.length := by
  have h := filterItems_counters hashFn forceAll ci items ⟨[], 0⟩
  unfold filterItems
  simpa using h

theorem filterItems_sublist_aux (hashFn : Str → Str) (forceAll : Bool)
    (ci : ChangeIndex) :
    ∀ (items : List Item) (acc : FilterResult),
      ∃ sub,
        (items.foldl
            (fun acc it =>
              if forceAll ∨ alookup ci.baseHash (getBaseId it.id) ≠
                  some (hashFn (textToEmbed it)) then
                { acc with toEmbed := acc.toEmbed ++ [(it, hashFn (textToEmbed it))] }
              else { acc with skipped := acc.skipped + 1 }) acc).toEmbed =
          acc.toEmbed ++ sub ∧ (sub.map (fun q => q.1)).Sublist items := by
  intro items
  induction items with
  | nil => intro acc; exact ⟨[], by simp, by simp⟩
  | cons it rest ih =>
    intro acc
    rw [List.foldl_cons]
    by_cases hcond : forceAll ∨ alookup ci.baseHash (getBaseId it.id) ≠
        some (hashFn (textToEmbed it))
    · rw [if_pos hcond]
      obtain ⟨sub, h1, h2⟩ := ih
        { acc with toEmbed := acc.toEmbed ++ [(it, hashFn (textToEmbed it))] }
      refine ⟨(it, hashFn (textToEmbed it)) :: sub, ?_, ?_⟩
      · rw [h1]; simp
      · simpa using List.Sublist.cons₂ it h2
    · rw [if_neg hcond]
      obtain ⟨sub, h1, h2⟩ := ih { acc with skipped := acc.skipped + 1 }
      exact ⟨sub, h1, List.Sublist.cons it h2⟩

theorem filterItems_sublist (hashFn : Str → Str) (forceAll : Bool)
    (ci : ChangeIndex) (items : List Item) :
    ((filterItems hashFn forceAll ci items).toEmbed.map
      (fun q => q.1)).Sublist items := by
  obtain ⟨sub, h1, h2⟩ := filterItems_sublist_aux hashFn forceAll ci items ⟨[], 0⟩
  unfold filterItems
  rw [h1]
  simpa using h2

theorem chunkText_short (text : Str) (chunkSize overlap : Nat)
    (h : text.length ≤ chunkSize) : chunkText text chunkSize overlap = [text] := by
  unfold chunkText chunkSpans
  rw [if_pos h]
  simp

theorem expandItem_short (chunkSize chunkOverlap : Nat) (it : Item)
    (textHash : Str) (h : (textToEmbed it).length ≤ chunkSize) :
    expandItem chunkSize chunkOverlap it textHash =
      [{ chunkId := it.id, baseId := it.id, text := textToEmbed it,
         textHash := textHash, metadata := it.metadata }] := by
  unfold expandItem
  rw [chunkText_short _ _ _ h]
  rfl

theorem expandItems_short (chunkSize chunkOverlap : Nat)
    (l : List (Item × Str))
    (h : ∀ q ∈ l, (textToEmbed q.1).length ≤ chunkSize) :
    expandItems chunkSize chunkOverlap l =
      l.map (fun q =>
        { chunkId := q.1.id, baseId := q.1.id, text := textToEmbed q.1,
          textHash := q.2, metadata := q.1.metadata }) := by
  induction l with
  | nil => rfl
  | cons q rest ih =>
    unfold expandItems
    rw [List.flatMap_cons]
    rw [expandItem_short _ _ _ _ (h q (List.mem_cons_self q rest))]
    unfold expandItems at ih
    rw [ih (fun x hx => h x (List.mem_cons_of_mem q hx))]
    rfl

/-!
### Scan characterization lemmas
-/

/-- `existingChunks.get(b)` with a missing key read as the empty list. -/
def lookupChunks (m : List (Str × List Str)) (b : Str) : List Str :=
  match alookup m b with
  | some l => l
  | none => []

theorem alookup_append {ν : Type} (m m' : List (Str × ν)) (k : Str) :
    alookup (m ++ m') k =
      match alookup m k with
      | some v => some v
      | none => alookup m' k := by
  induction m with
  | nil => simp [alookup]
  | cons q r ih =>
    obtain ⟨qk, qv⟩ := q
    by_cases hq : qk = k
    · simp [alookup, hq]
    · simp [alookup, hq, ih]

theorem alookup_map_append {x : Str} (m : List (Str × List Str)) (k b : Str) :
    alookup (m.map (fun p => if p.1 = k then (p.1, p.2 ++ [x]) else p)) b =
      if b = k then (alookup m b).map (fun l => l ++ [x]) else alookup m b := by
  induction m with
  | nil => by_cases hbk : b = k <;> simp [alookup, hbk]
  | cons q r ih =>
    obtain ⟨qk, qv⟩ := q
    have hfun : (((qk, qv) : Str × List Str) :: r).map
        (fun p => if p.1 = k then (p.1, p.2 ++ [x]) else p) =
        (if qk = k then (qk, qv ++ [x]) else (qk, qv)) ::
          r.map (fun p => if p.1 = k then (p.1, p.2 ++ [x]) else p) := rfl
    rw [hfun]
    rcases eq_or_ne qk k with rfl | hqk
    · rw [if_pos rfl]
      rcases eq_or_ne qk b with rfl | hqb
      · simp [alookup]
      · simp [alookup, hqb, Ne.symm hqb, ih]
    · rw [if_neg hqk]
      rcases eq_or_ne qk b with rfl | hqb
      · simp [alookup, hqk]
      · simp [alookup, hqk, hqb, ih]

theorem lookupChunks_appendChunk (m : List (Str × List Str)) (k x b : Str) :
    lookupChunks (appendChunk m k x) b =
      if b = k then lookupChunks m b ++ [x] else lookupChunks m b := by
  unfold appendChunk
  cases hk : alookup m k with
  | some l =>
    unfold lookupChunks
    rw [alookup_map_append]
    by_cases hbk : b = k
    · rw [if_pos hbk, if_pos hbk]
      cases hb : alookup m b with
      | some lb => rfl
      | none => rw [hbk] at hb; rw [hb] at hk; cases hk
    · rw [if_neg hbk, if_neg hbk]
  | none =>
    unfold lookupChunks
    rw [alookup_append]
    by_cases hbk : b = k
    · rw [if_pos hbk]
      subst hbk
      rw [hk]
      show (match alookup [(b, [x])] b with
        | some l => l | none => []) = [] ++ [x]
      simp [alookup]
    · rw [if_neg hbk]
      cases hb : alookup m b with
      | some lb => rfl
      | none =>
        have hkb : ¬ k = b := fun h => hbk h.symm
        show (match alookup [(k, [x])] b with
          | some l => l | none => []) = []
        simp [alookup, hkb]

theorem scanFold_chunksOf {V : Type} :
    ∀ (rows : List (EmbRecord V)) (ci : ChangeIndex) (pr : List (EmbRecord V)),
      (∀ b, lookupChunks ci.chunksOf b =
        ((pr.filter (fun r => decide (getBaseId r.id = b))).map (fun r => r.id))) →
      ∀ b, lookupChunks
          ((rows.foldl (fun ci r => scanStep ci r.id r.text_hash) ci).chunksOf) b =
        (((pr ++ rows).filter (fun r => decide (getBaseId r.id = b))).map
          (fun r => r.id)) := by
  intro rows
  induction rows with
  | nil => intro ci pr hinv b; simpa using hinv b
  | cons r rest ih =>
    intro ci pr hinv b
    rw [List.foldl_cons]
    have hstep : ∀ b, lookupChunks ((scanStep ci r.id r.text_hash).chunksOf) b =
        (((pr ++ [r]).filter (fun r => decide (getBaseId r.id = b))).map
          (fun r => r.id)) := by
      intro b
      show lookupChunks (appendChunk ci.chunksOf (getBaseId r.id) r.id) b = _
      rw [lookupChunks_appendChunk, List.filter_append, List.map_append]
      by_cases hb : b = getBaseId r.id
      · rw [if_pos hb, hinv b]
        have : [r].filter (fun x => decide (getBaseId x.id = b)) = [r] := by
          simp [hb]
        rw [this]
        rfl
      · rw [if_neg hb, hinv b]
        have : [r].filter (fun x => decide (getBaseId x.id = b)) = [] := by
          simp
          exact fun h => hb h.symm
        rw [this]
        simp
    have := ih (scanStep ci r.id r.text_hash) (pr ++ [r]) hstep b
    rw [this]
    simp

theorem scanTable_chunksOf {V : Type} (rows : List (EmbRecord V)) (b : Str) :
    lookupChunks (scanTable rows).chunksOf b =
      ((rows.filter (fun r => decide (getBaseId r.id = b))).map
        (fun r => r.id)) := by
  have h := scanFold_chunksOf rows emptyChangeIndex []
    (fun b => rfl) b
  unfold scanTable
  simpa using h

theorem mem_insertSet {s : List Str} {x y : Str} (h : y ∈ insertSet s x) :
    y ∈ s ∨ y = x := by
  unfold insertSet at h
  by_cases hx : x ∈ s
  · rw [if_pos hx] at h; exact Or.inl h
  · rw [if_neg hx] at h
    rcases List.mem_append.mp h with h' | h'
    · exact Or.inl h'
    · exact Or.inr (List.mem_singleton.mp h')

theorem scanFold_existingIds {V : Type} :
    ∀ (rows : List (EmbRecord V)) (ci : ChangeIndex) (y : Str),
      y ∈ (rows.foldl (fun ci r => scanStep ci r.id r.text_hash) ci).existingIds →
      y ∈ ci.existingIds ∨ ∃ r ∈ rows, r.id = y := by
  intro rows
  induction rows with
  | nil => intro ci y hy; exact Or.inl hy
  | cons r rest ih =>
    intro ci y hy
    rw [List.foldl_cons] at hy
    rcases ih (scanStep ci r.id r.text_hash) y hy with h' | h'
    · have : y ∈ insertSet ci.existingIds r.id := h'
      rcases mem_insertSet this with h'' | h''
      · exact Or.inl h''
      · exact Or.inr ⟨r, List.mem_cons_self r rest, h''.symm⟩
    · obtain ⟨r', hr', hre⟩ := h'
      exact Or.inr ⟨r', List.mem_cons_of_mem r hr', hre⟩

theorem scanTable_existingIds {V : Type} (rows : List (EmbRecord V)) (y : Str)
    (hy : y ∈ (scanTable rows).existingIds) : ∃ r ∈ rows, r.id = y := by
  rcases scanFold_existingIds rows emptyChangeIndex y hy with h' | h'
  · cases h'
  · exact h'

theorem scanFold_baseHash_const {V : Type} (b h : Str) :
    ∀ (rows : List (EmbRecord V)) (ci : ChangeIndex),
      ci.baseHash = [(b, h)] →
      (∀ r ∈ rows, getBaseId r.id = b) →
      (rows.foldl (fun ci r => scanStep ci r.id r.text_hash) ci).baseHash =
        [(b, h)] := by
  intro rows
  induction rows with
  | nil => intro ci hci _; exact hci
  | cons r rest ih =>
    intro ci hci hall
    rw [List.foldl_cons]
    apply ih
    · show (match alookup ci.baseHash (getBaseId r.id) with
        | some _ => ci.baseHash
        | none => ci.baseHash ++ [(getBaseId r.id, r.text_hash)]) = [(b, h)]
      rw [hci, hall r (List.mem_cons_self r rest)]
      show (match alookup [(b, h)] b with
        | some _ => [(b, h)]
        | none => [(b, h)] ++ [(b, r.text_hash)]) = [(b, h)]
      unfold alookup
      rw [if_pos rfl]
    · intro r' hr'
      exact hall r' (List.mem_cons_of_mem r hr')

theorem scanTable_baseHash_single {V : Type} (b h : Str)
    (rows : List (EmbRecord V)) (hne : rows ≠ [])
    (hall : ∀ r ∈ rows, getBaseId r.id = b ∧ r.text_hash = h) :
    (scanTable rows).baseHash = [(b, h)] := by
  cases rows with
  | nil => exact absurd rfl hne
  | cons r rest =>
    unfold scanTable
    rw [List.foldl_cons]
    apply scanFold_baseHash_const
    · show (match alookup emptyChangeIndex.baseHash (getBaseId r.id) with
        | some _ => emptyChangeIndex.baseHash
        | none => emptyChangeIndex.baseHash ++ [(getBaseId r.id, r.text_hash)]) =
        [(b, h)]
      obtain ⟨h1, h2⟩ := hall r (List.mem_cons_self r rest)
      rw [h1, h2]
      rfl
    · intro r' hr'
      exact (hall r' (List.mem_cons_of_mem r hr')).1

/-!
### Chunk identifier lemmas
-/

theorem chunkText_ne_nil (text : Str) (chunkSize overlap : Nat) :
    chunkText text chunkSize overlap ≠ [] := by
  unfold chunkText chunkSpans
  by_cases hle : text.length ≤ chunkSize
  · rw [if_pos hle]; simp
  · rw [if_neg hle]
    intro hmap
    rw [List.map_eq_nil_iff] at hmap
    have hpos : 0 < text.length := by omega
    unfold chunkLoop at hmap
    rw [if_pos hpos] at hmap
    by_cases hbr : text.length - (0 + (chunkSize - overlap)) < overlap ∧
        0 + (chunkSize - overlap) < text.length
    · rw [if_pos hbr] at hmap; cases hmap
    · rw [if_neg hbr] at hmap; cases hmap

theorem expandItem_ne_nil (chunkSize chunkOverlap : Nat) (it : Item)
    (textHash : Str) : expandItem chunkSize chunkOverlap it textHash ≠ [] := by
  unfold expandItem
  by_cases h1 : (chunkText (textToEmbed it) chunkSize chunkOverlap).length = 1
  · rw [if_pos h1]; simp
  · rw [if_neg h1]
    intro hmap
    rw [List.map_eq_nil_iff, List.enum_eq_nil] at hmap
    exact chunkText_ne_nil _ _ _ hmap

theorem expandItem_ids (chunkSize chunkOverlap : Nat) (it : Item) (h : Str)
    (hid : getBaseId it.id = it.id) (hne : it.id ≠ []) :
    ∀ c ∈ expandItem chunkSize chunkOverlap it h,
      getBaseId c.chunkId = it.id ∧ c.baseId = it.id ∧ c.textHash = h ∧
        c.chunkId ≠ [] := by
  intro c hc
  unfold expandItem at hc
  by_cases h1 : (chunkText (textToEmbed it) chunkSize chunkOverlap).length = 1
  · rw [if_pos h1] at hc
    rw [List.mem_singleton.mp hc]
    exact ⟨hid, rfl, rfl, hne⟩
  · rw [if_neg h1] at hc
    obtain ⟨q, _, hqe⟩ := List.mem_map.mp hc
    subst hqe
    refine ⟨getBaseId_natToChars_suffix it.id q.1, rfl, rfl, ?_⟩
    cases it.id with
    | nil => simp
    | cons a l => simp

/-!
### Assembly lemmas for `embedBatchModel`
-/

theorem finalizeBatch_counters {V : Type} (flushOk : Nat → Bool)
    (st1 : LoopState V) (hfl : ∀ n, flushOk n = true) :
    (finalizeBatch flushOk st1).errors = st1.errors ∧
      (finalizeBatch flushOk st1).processedBaseIds = st1.processedBaseIds := by
  unfold finalizeBatch
  by_cases h : 0 < st1.buffer.length
  · rw [if_pos h, flushBuffer_ok _ _ (hfl _)]
    exact ⟨rfl, rfl⟩
  · rw [if_neg h]
    exact ⟨rfl, rfl⟩

theorem finalize_run_table {V : Type} (p : Provider V) (now : Nat)
    (provOk flushOk : Nat → Bool) (sbs pi total skipped : Nat)
    (hprov : ∀ n, provOk n = true) (hfl : ∀ n, flushOk n = true)
    (bl : List (List ChunkInfo)) (tab : Option (List (EmbRecord V)))
    (exIds : List Str)
    (hne : ∀ c ∈ bl.flatten, c.chunkId ≠ [])
    (hnew : ∀ c ∈ bl.flatten, c.chunkId ∉ exIds) :
    (finalizeBatch flushOk
        (runBatches p now provOk flushOk sbs pi total skipped 0
          (initialLoopState tab exIds) bl)).table =
      tableApp tab ((bl.flatten).map (chunkRecord p now)) := by
  obtain ⟨flushed, ht, hb, he, _, _⟩ :=
    runBatches_all_success p now provOk flushOk sbs pi total skipped hprov hfl
      bl 0 (initialLoopState tab exIds) hne hnew
      (fun r hr => absurd hr (List.not_mem_nil r))
  set st1 := runBatches p now provOk flushOk sbs pi total skipped 0
    (initialLoopState tab exIds) bl with hst1
  have hb' : flushed ++ st1.buffer = (bl.flatten).map (chunkRecord p now) := by
    rw [hb]; rfl
  unfold finalizeBatch
  by_cases hbuf1 : 0 < st1.buffer.length
  · rw [if_pos hbuf1, flushBuffer_ok _ _ (hfl _)]
    show storeBatchFlush st1.existingIds st1.table st1.buffer =
      tableApp tab ((bl.flatten).map (chunkRecord p now))
    have hsub : ∀ r ∈ st1.buffer, r.id ∉ st1.existingIds := by
      intro r hr
      rw [he]
      have hrin : r ∈ flushed ++ st1.buffer := List.mem_append_right flushed hr
      rw [hb'] at hrin
      obtain ⟨c, hc, hce⟩ := List.mem_map.mp hrin
      subst hce
      exact hnew c hc
    rw [storeBatchFlush_all_new _ _ _ hsub, ht, tableApp_assoc, hb']
    rfl
  · rw [if_neg hbuf1]
    have hbnil : st1.buffer = [] :=
      List.length_eq_zero.mp (by omega)
    rw [hbnil] at hb'
    rw [ht]
    have hfe : flushed = (bl.flatten).map (chunkRecord p now) := by
      simpa using hb'
    rw [hfe]
    rfl

theorem mkOutcome_fields {V : Type} (st2 : LoopState V) (skipped total : Nat) :
    (mkOutcome st2 skipped total).processed = st2.processedBaseIds.length ∧
      (mkOutcome st2 skipped total).skipped = skipped ∧
      (mkOutcome st2 skipped total).errors = st2.errors ∧
      (mkOutcome st2 skipped total).table = st2.table :=
  ⟨rfl, rfl, rfl, rfl⟩

/-!
### Claim C4
-/

/-- **C4, amended.**  When every item's embedded text fits in one chunk,
the items' ids are pairwise distinct, and no store-flush fails, the
returned counters satisfy `processed + skipped + errors = items.length`,
for every initial table, every option set, and arbitrary per-call provider
failures.  (The counterexample below shows the unrestricted claim is false:
provider-batch failures are counted per *chunk* and flush failures count
records that were already counted as processed.) -/
theorem batch_counters {V : Type} (p : Provider V) (hashFn : Str → Str)
    (now : Nat) (provOk flushOk : Nat → Bool)
    (table0 : Option (List (EmbRecord V))) (items : List Item)
    (opts : BatchOptions)
    (hfl : ∀ n, flushOk n = true) (hmbs : 1 ≤ p.maxBatchSize)
    (hshort : ∀ it ∈ items, (textToEmbed it).length ≤ opts.chunkSize)
    (hdist : (items.map Item.id).Pairwise (fun a b => a ≠ b)) :
    (embedBatchModel p hashFn now provOk flushOk table0 items opts).processed +
        (embedBatchModel p hashFn now provOk flushOk table0 items opts).skipped +
        (embedBatchModel p hashFn now provOk flushOk table0 items opts).errors =
      items.length := by
  rw [embedBatchModel_eq]
  set ci := loadChangeIndex opts.forceAll table0 with hci
  set fr := filterItems hashFn opts.forceAll ci items with hfr
  have hsubitems : (fr.toEmbed.map (fun q => q.1)).Sublist items := by
    rw [hfr, hci]
    exact filterItems_sublist hashFn opts.forceAll _ items
  have hchunks : expandItems opts.chunkSize opts.chunkOverlap fr.toEmbed =
      fr.toEmbed.map (fun q =>
        { chunkId := q.1.id, baseId := q.1.id, text := textToEmbed q.1,
          textHash := q.2, metadata := q.1.metadata }) := by
    apply expandItems_short
    intro q hq
    exact hshort q.1 (hsubitems.mem (List.mem_map_of_mem _ hq))
  set chunks := expandItems opts.chunkSize opts.chunkOverlap fr.toEmbed
    with hchdef
  have hflat : (toBatches p.maxBatchSize chunks).flatten = chunks :=
    toBatches_flatten _ hmbs _
  have hdistc : ((toBatches p.maxBatchSize chunks).flatten.map
      (fun c => c.baseId)).Pairwise (fun a b => a ≠ b) := by
    rw [hflat, hchunks, List.map_map]
    have hstep : ((fun (c : ChunkInfo) => c.baseId) ∘ (fun (q : Item × Str) =>
        ({ chunkId := q.1.id, baseId := q.1.id, text := textToEmbed q.1,
           textHash := q.2, metadata := q.1.metadata } : ChunkInfo))) =
        fun q => q.1.id := rfl
    rw [hstep]
    have hsub2 := hsubitems.map Item.id
    rw [List.map_map] at hsub2
    exact hdist.sublist hsub2
  have hcount := runBatches_counters p now provOk flushOk opts.storeBatchSize
    opts.progressInterval items.length fr.skipped hfl
    (toBatches p.maxBatchSize chunks) 0
    (initialLoopState (deleteStale ci (idsToDeleteFor ci fr.toEmbed) table0).1
      (deleteStale ci (idsToDeleteFor ci fr.toEmbed) table0).2)
    (fun c _ hmem => absurd hmem (List.not_mem_nil c.baseId))
    hdistc
  obtain ⟨hfe, hfp⟩ := finalizeBatch_counters flushOk
    (runBatches p now provOk flushOk opts.storeBatchSize opts.progressInterval
      items.length fr.skipped 0
      (initialLoopState (deleteStale ci (idsToDeleteFor ci fr.toEmbed) table0).1
        (deleteStale ci (idsToDeleteFor ci fr.toEmbed) table0).2)
      (toBatches p.maxBatchSize chunks)) hfl
  rw [(mkOutcome_fields _ fr.skipped items.length).1,
    (mkOutcome_fields _ fr.skipped items.length).2.1,
    (mkOutcome_fields _ fr.skipped items.length).2.2.1, hfe, hfp]
  have hflatlen : (toBatches p.maxBatchSize chunks).flatten.length =
      fr.toEmbed.length := by
    rw [hflat, hchunks, List.length_map]
  have hskip : fr.skipped + fr.toEmbed.length = items.length := by
    rw [hfr, hci]
    exact filterItems_count hashFn opts.forceAll _ items
  have hz1 : (initialLoopState
      (deleteStale ci (idsToDeleteFor ci fr.toEmbed) table0).1
      (deleteStale ci (idsToDeleteFor ci fr.toEmbed) table0).2 :
        LoopState V).processedBaseIds.length = 0 := rfl
  have hz2 : (initialLoopState
      (deleteStale ci (idsToDeleteFor ci fr.toEmbed) table0).1
      (deleteStale ci (idsToDeleteFor ci fr.toEmbed) table0).2 :
        LoopState V).errors = 0 := rfl
  rw [hz1, hz2] at hcount
  omega

/-!
### Single-item evaluation lemmas
-/

theorem loadChangeIndex_false_some {V : Type} (rows : List (EmbRecord V)) :
    loadChangeIndex false (some rows) = scanTable rows := rfl

theorem filterItems_single_pass (hashFn : Str → Str) (ci : ChangeIndex)
    (it : Item)
    (hcond : alookup ci.baseHash (getBaseId it.id) ≠
      some (hashFn (textToEmbed it))) :
    filterItems hashFn false ci [it] =
      ⟨[(it, hashFn (textToEmbed it))], 0⟩ := by
  simp only [filterItems, List.foldl_cons, List.foldl_nil]
  rw [if_pos (Or.inr hcond)]
  simp

theorem filterItems_single_skip (hashFn : Str → Str) (ci : ChangeIndex)
    (it : Item)
    (hcond : alookup ci.baseHash (getBaseId it.id) =
      some (hashFn (textToEmbed it))) :
    filterItems hashFn false ci [it] = ⟨[], 1⟩ := by
  simp only [filterItems, List.foldl_cons, List.foldl_nil]
  rw [if_neg]
  rintro (h | h)
  · cases h
  · exact h hcond

theorem expandItems_single (chunkSize chunkOverlap : Nat) (it : Item)
    (h : Str) :
    expandItems chunkSize chunkOverlap [(it, h)] =
      expandItem chunkSize chunkOverlap it h := by
  unfold expandItems
  simp

theorem idsToDeleteFor_single (ci : ChangeIndex) (it : Item) (h : Str) :
    idsToDeleteFor ci [(it, h)] =
      lookupChunks ci.chunksOf (getBaseId it.id) := by
  unfold idsToDeleteFor dedupStrs lookupChunks insertSet
  simp only [List.map_cons, List.map_nil, List.foldl_cons, List.foldl_nil]
  rw [if_neg (List.not_mem_nil _)]
  show (match alookup ci.chunksOf (getBaseId it.id) with
    | some chunks => chunks
    | none => []) ++ [].flatMap _ = _
  cases alookup ci.chunksOf (getBaseId it.id) with
  | some l => simp
  | none => simp

theorem tableApp_none_of_ne_nil {V : Type} {l : List (EmbRecord V)}
    (h : l ≠ []) : tableApp none l = some l := by
  cases l with
  | nil => exact absurd rfl h
  | cons a t => rfl

theorem chunkRecord_fields {V : Type} (p : Provider V) (now : Nat)
    (c : ChunkInfo) :
    (chunkRecord p now c).id = c.chunkId ∧
      (chunkRecord p now c).text_hash = c.textHash := ⟨rfl, rfl⟩

/-!
### Claim C2
-/

/-- **C2, amended.**  For every item whose id is non-empty and is not
itself of chunk-id shape (`getBaseId id = id`), embedding it into an empty
store and then embedding the identical item again without `forceAll` makes
the second run count it as skipped — because the stored fingerprint under
its `baseId` equals the recomputed `hashFn` value, a pure function of the
embedded text — and leaves the stored records exactly unchanged.  The
second run's oracles and timestamp are arbitrary: no provider or store
write happens at all.  (The counterexample below shows the claim fails, as
stated, for ids ending in `"#" ++ digits` whose text spans several
chunks.) -/
theorem embed_idempotent {V : Type} (p : Provider V) (hashFn : Str → Str)
    (now now' : Nat) (provOk flushOk provOk' flushOk' : Nat → Bool)
    (it : Item) (opts : BatchOptions)
    (hforce : opts.forceAll = false)
    (hprov : ∀ n, provOk n = true) (hfl : ∀ n, flushOk n = true)
    (hmbs : 1 ≤ p.maxBatchSize)
    (hid : getBaseId it.id = it.id) (hne : it.id ≠ []) :
    (embedBatchModel p hashFn now' provOk' flushOk'
        (embedBatchModel p hashFn now provOk flushOk none [it] opts).table
        [it] opts).skipped = 1
    ∧ (embedBatchModel p hashFn now' provOk' flushOk'
        (embedBatchModel p hashFn now provOk flushOk none [it] opts).table
        [it] opts).processed = 0
    ∧ (embedBatchModel p hashFn now' provOk' flushOk'
        (embedBatchModel p hashFn now provOk flushOk none [it] opts).table
        [it] opts).errors = 0
    ∧ (embedBatchModel p hashFn now' provOk' flushOk'
        (embedBatchModel p hashFn now provOk flushOk none [it] opts).table
        [it] opts).table =
      (embedBatchModel p hashFn now provOk flushOk none [it] opts).table := by
  set h := hashFn (textToEmbed it) with hh
  set chunks := expandItem opts.chunkSize opts.chunkOverlap it h with hch
  set recs := chunks.map (chunkRecord p now) with hrecs
  -- the first run produces exactly the chunk records
  have hids := expandItem_ids opts.chunkSize opts.chunkOverlap it h hid hne
  have hrun1 : (embedBatchModel p hashFn now provOk flushOk none [it]
      opts).table = some recs := by
    rw [embedBatchModel_eq, hforce]
    have hempty : loadChangeIndex false (none : Option (List (EmbRecord V))) =
        emptyChangeIndex := rfl
    rw [hempty]
    have hfilter := filterItems_single_pass hashFn emptyChangeIndex it
      (by intro hcontra; cases hcontra)
    rw [hfilter]
    have hdel : deleteStale emptyChangeIndex
        (idsToDeleteFor emptyChangeIndex
          (⟨[(it, h)], 0⟩ : FilterResult).toEmbed)
        (none : Option (List (EmbRecord V))) = (none, []) := rfl
    rw [hdel]
    have hexp : expandItems opts.chunkSize opts.chunkOverlap
        (⟨[(it, h)], 0⟩ : FilterResult).toEmbed = chunks := by
      rw [hch]
      exact expandItems_single _ _ it h
    rw [hexp]
    have htab := finalize_run_table p now provOk flushOk opts.storeBatchSize
      opts.progressInterval [it].length
      (⟨[(it, h)], 0⟩ : FilterResult).skipped hprov hfl
      (toBatches p.maxBatchSize chunks) none []
      (by
        intro c hc
        rw [toBatches_flatten _ hmbs] at hc
        exact (hids c hc).2.2.2)
      (fun c _ hmem => absurd hmem (List.not_mem_nil c.chunkId))
    rw [(mkOutcome_fields _ _ _).2.2.2, htab, toBatches_flatten _ hmbs, ← hrecs]
    apply tableApp_none_of_ne_nil
    rw [hrecs, hch]
    intro hmapnil
    rw [List.map_eq_nil_iff] at hmapnil
    exact expandItem_ne_nil _ _ it h hmapnil
  -- the stored records all carry the item's baseId and hash
  have hrecprops : ∀ r ∈ recs, getBaseId r.id = it.id ∧ r.text_hash = h := by
    intro r hr
    rw [hrecs] at hr
    obtain ⟨c, hc, hce⟩ := List.mem_map.mp hr
    subst hce
    obtain ⟨h1, _, h3, _⟩ := hids c hc
    exact ⟨h1, h3⟩
  have hrecne : recs ≠ [] := by
    rw [hrecs, hch]
    intro hmapnil
    rw [List.map_eq_nil_iff] at hmapnil
    exact expandItem_ne_nil _ _ it h hmapnil
  -- scanning them yields exactly the one (baseId, fingerprint) binding
  have hscan : (scanTable recs).baseHash = [(it.id, h)] :=
    scanTable_baseHash_single it.id h recs hrecne hrecprops
  -- the second run takes the skip path and changes nothing
  have hrun2 : embedBatchModel p hashFn now' provOk' flushOk' (some recs) [it]
      opts = mkOutcome (initialLoopState (some recs)
        (scanTable recs).existingIds) 1 1 := by
    rw [embedBatchModel_eq, hforce, loadChangeIndex_false_some]
    have hfilter2 := filterItems_single_skip hashFn (scanTable recs) it
      (by rw [hid, hscan, ← hh]; simp [alookup])
    rw [hfilter2]
    rfl
  rw [hrun1, hrun2]
  exact ⟨rfl, rfl, rfl, rfl⟩

/-!
### Concrete fixtures for the batch pipeline
-/

/-- A concrete embedding provider over `Nat` vectors. -/
def natProvider : Provider Nat :=
  { model := ['m'], dimensions := 1, maxBatchSize := 50,
    embedOne := fun t => t.length }

/-- A concrete injective fingerprint function. -/
def tagHash (s : Str) : Str := 'h' :: s

/-- Options used by the concrete runs: progress every batch, no `forceAll`,
`storeBatchSize = 100`, `chunkSize = 2`, `chunkOverlap = 1`. -/
def smallOpts : BatchOptions :=
  { progressInterval := 1, forceAll := false, storeBatchSize := 100,
    chunkSize := 2, chunkOverlap := 1 }

/-- An item whose id itself ends in `"#" ++ digits` and whose text spans
three chunks under `smallOpts`. -/
def hashyItem : Item :=
  { id := ['a', '#', '1'], text := ['x', 'y', 'z'], contextText := none,
    metadata := none }

/-- First embedding run of `hashyItem`, into an empty store. -/
def hashyRun1 : BatchOutcome Nat :=
  embedBatchModel natProvider tagHash 0 (fun _ => true) (fun _ => true) none
    [hashyItem] smallOpts

/-- Second embedding run of the identical item over the first run's store. -/
def hashyRun2 : BatchOutcome Nat :=
  embedBatchModel natProvider tagHash 1 (fun _ => true) (fun _ => true)
    hashyRun1.table [hashyItem] smallOpts

/-- **C2, counterexample.**  The item with id `"a#1"` and a text spanning
three chunks is *not* skipped when re-embedded unchanged: its chunks are
stored under ids `"a#1#0"`, `"a#1#1"`, `"a#1#2"`, whose scanned `baseId` is
`"a#1"`, while the filter looks the fingerprint up under
`getBaseId "a#1" = "a"` — so the lookup misses and the identical item is
re-embedded (`skipped = 0`, `processed = 1`).  The claim's universal
quantification over ids fails for ids that themselves end in
`"#" ++ digits`. -/
theorem embed_idempotent_cex :
    hashyRun2.skipped = 0 ∧ hashyRun2.processed = 1 ∧
      getBaseId hashyItem.id ≠ hashyItem.id := by decide

/-- A plain item: its id has no `"#" ++ digits` suffix. -/
def plainItem : Item :=
  { id := ['b'], text := ['x', 'y', 'z'], contextText := none,
    metadata := none }

/-- Witness for `embed_idempotent`: the concrete three-chunk item `"b"`
satisfies every hypothesis, and re-embedding it is indeed a skip. -/
theorem embed_idempotent_witness :
    smallOpts.forceAll = false ∧ 1 ≤ natProvider.maxBatchSize ∧
    getBaseId plainItem.id = plainItem.id ∧ plainItem.id ≠ [] ∧
    ((embedBatchModel natProvider tagHash 1 (fun _ => true) (fun _ => true)
        (embedBatchModel natProvider tagHash 0 (fun _ => true)
          (fun _ => true) none [plainItem] smallOpts).table
        [plainItem] smallOpts).skipped = 1 ∧
      (embedBatchModel natProvider tagHash 1 (fun _ => true) (fun _ => true)
        (embedBatchModel natProvider tagHash 0 (fun _ => true)
          (fun _ => true) none [plainItem] smallOpts).table
        [plainItem] smallOpts).table =
      (embedBatchModel natProvider tagHash 0 (fun _ => true) (fun _ => true)
        none [plainItem] smallOpts).table) :=
  ⟨rfl, by decide, by decide, by decide,
    (embed_idempotent natProvider tagHash 0 1 (fun _ => true) (fun _ => true)
        (fun _ => true) (fun _ => true) plainItem smallOpts rfl
        (fun _ => rfl) (fun _ => rfl) (by decide) (by decide)
        (by decide)).1,
    (embed_idempotent natProvider tagHash 0 1 (fun _ => true) (fun _ => true)
        (fun _ => true) (fun _ => true) plainItem smallOpts rfl
        (fun _ => rfl) (fun _ => rfl) (by decide) (by decide)
        (by decide)).2.2.2⟩

/-!
### Claim C1
-/

/-- **C1, amended.**  *Without* `forceAll`, re-embedding a changed item
whose id is plain (`getBaseId id = id`, `id ≠ []`) over an existing table
replaces every stored record of its `baseId` by exactly the new chunk
records: the final table is the old one with all records of that `baseId`
filtered out, followed by the freshly built chunk records — and every
record of that `baseId` in the final table is one of the new chunk
records. (The counterexample below shows the unrestricted claim is false:
under `forceAll` the change-detection scan is skipped, so no stale chunks
are collected and the previous chunk ids survive the re-embed.) -/
theorem chunk_replacement {V : Type} (p : Provider V) (hashFn : Str → Str)
    (now : Nat) (provOk flushOk : Nat → Bool) (T : List (EmbRecord V))
    (it : Item) (opts : BatchOptions)
    (hforce : opts.forceAll = false)
    (hprov : ∀ n, provOk n = true) (hfl : ∀ n, flushOk n = true)
    (hmbs : 1 ≤ p.maxBatchSize)
    (hid : getBaseId it.id = it.id) (hne : it.id ≠ [])
    (hchanged : alookup (scanTable T).baseHash it.id ≠
      some (hashFn (textToEmbed it))) :
    (embedBatchModel p hashFn now provOk flushOk (some T) [it] opts).table =
      some (T.filter (fun r => decide (getBaseId r.id ≠ it.id)) ++
        (expandItem opts.chunkSize opts.chunkOverlap it
          (hashFn (textToEmbed it))).map (chunkRecord p now))
    ∧ ∀ t, (embedBatchModel p hashFn now provOk flushOk (some T) [it]
          opts).table = some t →
        ∀ r ∈ t, getBaseId r.id = it.id →
          r ∈ (expandItem opts.chunkSize opts.chunkOverlap it
            (hashFn (textToEmbed it))).map (chunkRecord p now) := by
  set h := hashFn (textToEmbed it) with hh
  set chunks := expandItem opts.chunkSize opts.chunkOverlap it h with hch
  set recs := chunks.map (chunkRecord p now) with hrecs
  set dels := lookupChunks (scanTable T).chunksOf it.id with hdels
  have hids := expandItem_ids opts.chunkSize opts.chunkOverlap it h hid hne
  -- membership in the stale-id list, characterised through the table
  have hmemdel : ∀ i, i ∈ dels ↔
      (∃ r ∈ T, r.id = i) ∧ getBaseId i = it.id := by
    intro i
    rw [hdels, scanTable_chunksOf T it.id]
    constructor
    · intro hi
      obtain ⟨r, hr, hre⟩ := List.mem_map.mp hi
      rw [List.mem_filter] at hr
      subst hre
      exact ⟨⟨r, hr.1, rfl⟩, of_decide_eq_true hr.2⟩
    · rintro ⟨⟨r, hrT, hre⟩, hbase⟩
      subst hre
      exact List.mem_map.mpr
        ⟨r, List.mem_filter.mpr ⟨hrT, decide_eq_true hbase⟩, rfl⟩
  -- the stale deletion leaves exactly the records of other baseIds
  have hdel1 : (deleteStale (scanTable T) dels (some T)).1 =
      some (T.filter (fun r => decide (getBaseId r.id ≠ it.id))) := by
    unfold deleteStale
    by_cases hlen : 0 < dels.length
    · rw [if_pos ⟨hlen, rfl⟩]
      show some (T.filter (fun r => decide (r.id ∉ dels))) = _
      refine congrArg some (List.filter_congr ?_)
      intro r hrT
      apply decide_eq_decide.mpr
      constructor
      · intro hnotin hbase
        exact hnotin ((hmemdel r.id).mpr ⟨⟨r, hrT, rfl⟩, hbase⟩)
      · intro hne' hin
        exact hne' ((hmemdel r.id).mp hin).2
    · rw [if_neg (fun hc => hlen hc.1)]
      show some T = _
      refine congrArg some ?_
      symm
      apply List.filter_eq_self.mpr
      intro r hrT
      apply decide_eq_true
      intro hbase
      apply hlen
      exact List.length_pos.mpr
        (List.ne_nil_of_mem ((hmemdel r.id).mpr ⟨⟨r, hrT, rfl⟩, hbase⟩))
  -- no new chunk id is among the surviving existing ids
  have hnew : ∀ c ∈ chunks,
      c.chunkId ∉ (deleteStale (scanTable T) dels (some T)).2 := by
    intro c hc hcin
    obtain ⟨hcb, _, _, _⟩ := hids c hc
    unfold deleteStale at hcin
    by_cases hg : 0 < dels.length ∧
        (some T : Option (List (EmbRecord V))).isSome = true
    · rw [if_pos hg] at hcin
      rw [List.mem_filter] at hcin
      obtain ⟨r, hrT, hre⟩ := scanTable_existingIds T c.chunkId hcin.1
      exact (of_decide_eq_true hcin.2)
        ((hmemdel c.chunkId).mpr ⟨⟨r, hrT, hre⟩, hcb⟩)
    · rw [if_neg hg] at hcin
      obtain ⟨r, hrT, hre⟩ := scanTable_existingIds T c.chunkId hcin
      apply hg
      refine ⟨List.length_pos.mpr (List.ne_nil_of_mem
        ((hmemdel c.chunkId).mpr ⟨⟨r, hrT, hre⟩, hcb⟩)), rfl⟩
  -- assemble the pipeline
  have hmain : (embedBatchModel p hashFn now provOk flushOk (some T) [it]
      opts).table =
      some (T.filter (fun r => decide (getBaseId r.id ≠ it.id)) ++ recs) := by
    rw [embedBatchModel_eq, hforce, loadChangeIndex_false_some]
    have hfilter := filterItems_single_pass hashFn (scanTable T) it
      (by rw [hid]; exact hchanged)
    rw [hfilter]
    have hidsdel : idsToDeleteFor (scanTable T)
        (⟨[(it, h)], 0⟩ : FilterResult).toEmbed = dels := by
      have h1 := idsToDeleteFor_single (scanTable T) it h
      rw [hid] at h1
      exact h1
    rw [hidsdel]
    have hexp : expandItems opts.chunkSize opts.chunkOverlap
        (⟨[(it, h)], 0⟩ : FilterResult).toEmbed = chunks := by
      rw [hch]
      exact expandItems_single _ _ it h
    rw [hexp]
    have htab := finalize_run_table p now provOk flushOk opts.storeBatchSize
      opts.progressInterval [it].length
      (⟨[(it, h)], 0⟩ : FilterResult).skipped hprov hfl
      (toBatches p.maxBatchSize chunks)
      (deleteStale (scanTable T) dels (some T)).1
      (deleteStale (scanTable T) dels (some T)).2
      (by
        intro c hc
        rw [toBatches_flatten _ hmbs] at hc
        exact (hids c hc).2.2.2)
      (by
        intro c hc
        rw [toBatches_flatten _ hmbs] at hc
        exact hnew c hc)
    rw [(mkOutcome_fields _ _ _).2.2.2, htab, toBatches_flatten _ hmbs,
      ← hrecs, hdel1]
    rfl
  refine ⟨hmain, ?_⟩
  intro t ht r hr hrbase
  rw [hmain] at ht
  have ht' := Option.some.inj ht
  rw [← ht'] at hr
  rcases List.mem_append.mp hr with hr' | hr'
  · rw [List.mem_filter] at hr'
    exact absurd hrbase (of_decide_eq_true hr'.2)
  · exact hr'

/-- The ids stored in a (possibly absent) table. -/
def tableIds {V : Type} : Option (List (EmbRecord V)) → List Str
  | some t => t.map (fun r => r.id)
  | none => []

/-- Options identical to `smallOpts` but with `forceAll := true`. -/
def forceOpts : BatchOptions :=
  { progressInterval := 1, forceAll := true, storeBatchSize := 100,
    chunkSize := 2, chunkOverlap := 1 }

/-- An item with id `"a"` whose text spans three chunks under
`chunkSize = 2`, `chunkOverlap = 1`. -/
def wideItem : Item :=
  { id := ['a'], text := ['x', 'y', 'z'], contextText := none,
    metadata := none }

/-- The same item updated to content producing a single chunk. -/
def shrunkItem : Item :=
  { id := ['a'], text := ['x'], contextText := none, metadata := none }

/-- First `forceAll` run: stores the three chunks of `wideItem`. -/
def staleRun1 : BatchOutcome Nat :=
  embedBatchModel natProvider tagHash 0 (fun _ => true) (fun _ => true) none
    [wideItem] forceOpts

/-- Second `forceAll` run: re-embeds the updated, single-chunk item. -/
def staleRun2 : BatchOutcome Nat :=
  embedBatchModel natProvider tagHash 1 (fun _ => true) (fun _ => true)
    staleRun1.table [shrunkItem] forceOpts

/-- **C1, counterexample.**  Under `forceAll`, the change-detection scan is
skipped, so the stale-chunk collection is empty and nothing is deleted: an
item that previously produced the three stored chunks `"a#0"`, `"a#1"`,
`"a#2"` and is updated to single-chunk content ends with *four* stored
records for its `baseId`, and all three previous chunk ids remain
retrievable — refuting the claim for re-embeds triggered by `forceAll`. -/
theorem chunk_replacement_cex :
    tableIds staleRun1.table =
      [['a', '#', '0'], ['a', '#', '1'], ['a', '#', '2']] ∧
    staleRun2.processed = 1 ∧
    tableIds staleRun2.table =
      [['a', '#', '0'], ['a', '#', '1'], ['a', '#', '2'], ['a']] := by decide

/-- A concrete stored table: the three chunks of `wideItem`, all under
`baseId "a"`. -/
def staleTable : List (EmbRecord Nat) :=
  [{ id := ['a', '#', '0'], text_hash := tagHash ['x', 'y', 'z'],
     context_text := ['x', 'y'], model := ['m'], dimensions := 1,
     metadata := [], created_at := 0, updated_at := 0, vector := 2 },
   { id := ['a', '#', '1'], text_hash := tagHash ['x', 'y', 'z'],
     context_text := ['y', 'z'], model := ['m'], dimensions := 1,
     metadata := [], created_at := 0, updated_at := 0, vector := 2 },
   { id := ['a', '#', '2'], text_hash := tagHash ['x', 'y', 'z'],
     context_text := ['z'], model := ['m'], dimensions := 1,
     metadata := [], created_at := 0, updated_at := 0, vector := 1 }]

/-- Witness for `chunk_replacement`: re-embedding the updated single-chunk
item without `forceAll` over the three stored chunks satisfies every
hypothesis; the old records of `baseId "a"` are all filtered out, so the
final table holds exactly the one new record for that `baseId`. -/
theorem chunk_replacement_witness :
    smallOpts.forceAll = false ∧ 1 ≤ natProvider.maxBatchSize ∧
    getBaseId shrunkItem.id = shrunkItem.id ∧ shrunkItem.id ≠ [] ∧
    alookup (scanTable staleTable).baseHash shrunkItem.id ≠
      some (tagHash (textToEmbed shrunkItem)) ∧
    staleTable.filter (fun r => decide (getBaseId r.id ≠ shrunkItem.id)) =
      [] ∧
    (embedBatchModel natProvider tagHash 5 (fun _ => true) (fun _ => true)
        (some staleTable) [shrunkItem] smallOpts).table =
      some (staleTable.filter
          (fun r => decide (getBaseId r.id ≠ shrunkItem.id)) ++
        (expandItem smallOpts.chunkSize smallOpts.chunkOverlap shrunkItem
          (tagHash (textToEmbed shrunkItem))).map
            (chunkRecord natProvider 5)) :=
  ⟨rfl, by decide, by decide, by decide, by decide, rfl,
    (chunk_replacement natProvider tagHash 5 (fun _ => true) (fun _ => true)
      staleTable shrunkItem smallOpts rfl (fun _ => rfl) (fun _ => rfl)
      (by decide) (by decide) (by decide) (by decide)).1⟩

/-- A run of the three-chunk item `"a"` whose every provider call fails. -/
def failAllRun : BatchOutcome Nat :=
  embedBatchModel natProvider tagHash 0 (fun _ => false) (fun _ => true) none
    [wideItem] smallOpts

/-- **C4, counterexample.**  When the provider call for a batch fails, the
source adds the *batch length in chunks* to `errors` (line 965), while
`processed`/`skipped` count items: the single three-chunk item yields
`errors = 3`, so `processed + skipped + errors = 3 ≠ 1 = items.length`. -/
theorem batch_counters_cex :
    failAllRun.processed = 0 ∧ failAllRun.skipped = 0 ∧
      failAllRun.errors = 3 ∧
      failAllRun.processed + failAllRun.skipped + failAllRun.errors ≠ 1 := by
  decide

/-- Two single-chunk items with distinct ids. -/
def twoItems : List Item :=
  [{ id := ['a'], text := ['x'], contextText := none, metadata := none },
   { id := ['b'], text := ['y'], contextText := none, metadata := none }]

/-- A provider taking one item per batch. -/
def oneAtATime : Provider Nat :=
  { model := ['m'], dimensions := 1, maxBatchSize := 1,
    embedOne := fun t => t.length }

/-- Witness for `batch_counters`: two short distinct items, the first
provider batch failing and the second succeeding, all flushes succeeding —
the counters sum to the input size. -/
theorem batch_counters_witness :
    (∀ n, (fun _ => true : Nat → Bool) n = true) ∧
    1 ≤ oneAtATime.maxBatchSize ∧
    (∀ it ∈ twoItems, (textToEmbed it).length ≤ smallOpts.chunkSize) ∧
    (twoItems.map Item.id).Pairwise (fun a b => a ≠ b) ∧
    (embedBatchModel oneAtATime tagHash 0 (fun k => decide (k = 1))
          (fun _ => true) none twoItems smallOpts).processed +
        (embedBatchModel oneAtATime tagHash 0 (fun k => decide (k = 1))
          (fun _ => true) none twoItems smallOpts).skipped +
        (embedBatchModel oneAtATime tagHash 0 (fun k => decide (k = 1))
          (fun _ => true) none twoItems smallOpts).errors =
      twoItems.length :=
  ⟨fun _ => rfl, by decide, by decide, by decide,
    batch_counters oneAtATime tagHash 0 (fun k => decide (k = 1))
      (fun _ => true) none twoItems smallOpts (fun _ => rfl) (by decide)
      (by decide) (by decide)⟩

/-!
### Claim C6
-/

/-- 250 single-chunk items with pairwise distinct decimal ids. -/
def manyItems : List Item :=
  (List.range 250).map (fun i =>
    { id := natToChars i, text := ['x'], contextText := none,
      metadata := none })

/-- A provider embedding 250 texts in a single call. -/
def wideProvider : Provider Nat :=
  { model := ['m'], dimensions := 1, maxBatchSize := 250,
    embedOne := fun t => t.length }

/-- The 250 items embedded in one provider batch with
`storeBatchSize = 100`. -/
def oneShotRun : BatchOutcome Nat :=
  embedBatchModel wideProvider tagHash 0 (fun _ => true) (fun _ => true) none
    manyItems smallOpts

set_option maxRecDepth 40000 in
set_option maxHeartbeats 4000000 in
/-- **C6, counterexample.**  The flush trigger (line 956) flushes the
*entire* buffer once it reaches `storeBatchSize`, not `storeBatchSize`-sized
slices: a run producing 250 records in one provider batch with
`storeBatchSize = 100` issues a single flush of 250 records, not three
flushes of 100, 100 and 50 — refuting the claim's flush-call schedule for
runs whose provider batches exceed the store batch size. -/
theorem buffered_flush_cex :
    oneShotRun.flushes = [250] ∧ oneShotRun.flushes ≠ [100, 100, 50] ∧
      oneShotRun.stored = 250 := by
  decide

/-- The 250 items embedded 50 per provider batch with
`storeBatchSize = 100` and a progress report every batch. -/
def pacedRun : BatchOutcome Nat :=
  embedBatchModel natProvider tagHash 0 (fun _ => true) (fun _ => true) none
    manyItems smallOpts

set_option maxRecDepth 40000 in
set_option maxHeartbeats 4000000 in
/-- **C6, amended.**  When the provider batches (here 50 records each) stay
below `storeBatchSize = 100`, a run producing 250 records does flush
exactly 100, 100 and 50 records, ends with 250 stored, the progress
reports' `stored` values climb `0, 100, 100, 200, 200` and finish at `250`,
`stored` never exceeds `processed` in any report, and the final report has
`stored = processed = 250`. -/
theorem buffered_flush :
    pacedRun.flushes = [100, 100, 50] ∧
      pacedRun.reports.map Progress.stored =
        [0, 100, 100, 200, 200, 250] ∧
      pacedRun.processed = 250 ∧ pacedRun.stored = 250 ∧
      pacedRun.reports.all (fun pr => pr.stored ≤ pr.processed) = true :=
  ⟨rfl, rfl, rfl, rfl, rfl⟩

end Resona
